import Mathlib

/-!
# netman: WebSocket frame encoder and kqueue poller

A shallow embedding of `server/websocket_ctrl.go` (the frame encoder and the
close path of the WebSocket connection) and of `eventloop/kqueue.go` (the
kqueue poller: interest registration, the wait loop and the write drain).

Bytes are `Fin 256`; Go's `int`, `uint16` and `uint64` are naturals with the
conversions written as explicit remainders.  System calls and the methods of
the interfaces `iface.IConnect`, `iface.IConnectManager` and `iface.IPacker`
are answered by an explicit `World`; every call the code makes is recorded in
a trace of `Call`s, in program order.
-/

namespace Netman

/-! ## Bytes and `encoding/binary` -/

/-- A Go `byte` / `uint8`. -/
abbrev Byte := Fin 256

/-- The Go conversion `uint8(v)` / `byte(v)` of a non-negative integer. -/
def toUint8 (v : Nat) : Byte := ⟨v % 256, Nat.mod_lt _ (by decide)⟩

/-- The Go conversion `uint16(v)` of a non-negative integer. -/
def toUint16 (v : Nat) : Nat := v % 2 ^ 16

/-- The Go conversion `uint64(v)` of a non-negative integer. -/
def toUint64 (v : Nat) : Nat := v % 2 ^ 64

/-- Values of Go's `error` that the embedded code creates or compares with. -/
inductive GoError where
  | EINTR
  | EAGAIN
  | ENOENT
  | EBADF
  | EPIPE
  | EOF
  | HeadBytesLengthFail
  | BodyLenExceedLimit
  | other (code : Nat)
  deriving DecidableEq, Repr

/-- The fixed-size data `binary.Write` is called with in this repository. -/
inductive BinData where
  | u8 (v : Byte)
  | u16 (v : Nat)
  | u64 (v : Nat)
  | bytes (bs : List Byte)

/-- Encoding `binary.BigEndian.PutUint16`: `b[0] = byte(v >> 8)`, `b[1] = byte(v)`. -/
def putUint16 (v : Nat) : List Byte :=
  [toUint8 (v >>> 8), toUint8 v]

/-- Encoding `binary.BigEndian.PutUint64`: `b[0] = byte(v >> 56)`, ..., `b[7] = byte(v)`. -/
def putUint64 (v : Nat) : List Byte :=
  [toUint8 (v >>> 56), toUint8 (v >>> 48), toUint8 (v >>> 40), toUint8 (v >>> 32),
   toUint8 (v >>> 24), toUint8 (v >>> 16), toUint8 (v >>> 8), toUint8 v]

/-- The bytes `binary.Write(w, binary.BigEndian, data)` hands to `w.Write`. -/
def BinData.encodeBE : BinData → List Byte
  | .u8 v => [v]
  | .u16 v => putUint16 v
  | .u64 v => putUint64 v
  | .bytes bs => bs

/-- The call `binary.Write(dataBuffer, binary.BigEndian, data)` on a `bytes.Buffer`:
the encoded bytes are appended; `bytes.Buffer.Write` always returns a nil error. -/
def binaryWrite (dataBuffer : List Byte) (data : BinData) : Except GoError (List Byte) :=
  .ok (dataBuffer ++ data.encodeBE)

/-! ## `websocketProtocol.encode` -/

/-- The method `websocketProtocol.encode` (websocket_ctrl.go, lines 22-70). -/
def encode (firstByte : Byte) (bs : List Byte) : Except GoError (List Byte) := do
  let dataBuffer : List Byte := []
  let dataBuffer ← binaryWrite dataBuffer (.u8 firstByte)
  let totalLen := bs.length
  let dataBuffer ←
    if totalLen ≤ 125 then
      binaryWrite dataBuffer (.u8 (toUint8 totalLen))
    else if totalLen ≥ 126 ∧ totalLen ≤ 65535 then do
      let dataBuffer ← binaryWrite dataBuffer (.u8 (toUint8 126))
      binaryWrite dataBuffer (.u16 (toUint16 totalLen))
    else do
      let dataBuffer ← binaryWrite dataBuffer (.u8 (toUint8 127))
      binaryWrite dataBuffer (.u64 (toUint64 totalLen))
  let dataBuffer ← binaryWrite dataBuffer (.bytes bs)
  return dataBuffer

/-- The value of a byte string read as a big-endian unsigned integer. -/
def beNat (l : List Byte) : Nat :=
  l.foldl (fun acc b => acc * 256 + b.val) 0

/-- The mask bit of a frame: the top bit of its second byte. -/
def maskBit (frame : List Byte) : Bool :=
  match frame with
  | _ :: b1 :: _ => decide (128 ≤ b1.val)
  | _ => false

/-! ## The frame layout read back -/

/-- A decoded WebSocket frame: fin bit, opcode nibble and unmasked payload. -/
structure Frame where
  fin : Bool
  opcode : Nat
  payload : List Byte
  deriving DecidableEq, Repr

/-- Masking of a payload with a 4-byte key: byte `i` is xor-ed with `key[i % 4]`. -/
def applyMask (key : List Byte) (payload : List Byte) : List Byte :=
  List.zipWith (fun i b => b ^^^ key.getD (i % 4) 0) (List.range payload.length) payload

/-- Modelled from the spec: the frame decoder of the repository (`nextFrame`) is not
under src/.  This reads one frame by the layout of spec section 4.3: first byte =
fin bit + opcode nibble; second byte = mask bit + 7-bit length; a 2-byte or 8-byte
big-endian extended length when the 7-bit field is 126 or 127; a 4-byte mask key
when the mask bit is set; then the payload of the resolved length, unmasked when a
key is present.  It returns the frame and the bytes left over, or `none` when the
input is too short. -/
def decodeFrame (input : List Byte) : Option (Frame × List Byte) :=
  match input with
  | b0 :: b1 :: rest =>
    let fin := decide (128 ≤ b0.val)
    let opcode := b0.val % 16
    let masked := decide (128 ≤ b1.val)
    let len7 := b1.val % 128
    let ext : Option (Nat × List Byte) :=
      if len7 = 126 then
        if 2 ≤ rest.length then some (beNat (rest.take 2), rest.drop 2) else none
      else if len7 = 127 then
        if 8 ≤ rest.length then some (beNat (rest.take 8), rest.drop 8) else none
      else some (len7, rest)
    match ext with
    | none => none
    | some (n, rest1) =>
      let keyed : Option (Option (List Byte) × List Byte) :=
        if masked then
          if 4 ≤ rest1.length then some (some (rest1.take 4), rest1.drop 4) else none
        else some (none, rest1)
      match keyed with
      | none => none
      | some (key, rest2) =>
        if n ≤ rest2.length then
          let raw := rest2.take n
          let payload := match key with
            | some k => applyMask k raw
            | none => raw
          some ({ fin := fin, opcode := opcode, payload := payload }, rest2.drop n)
        else none
  | _ => none

/-! ## The kqueue poller: data -/

/-- The conversion `uint64(fd)` of a Go `int`. -/
def intToUint64 (i : Int) : Nat := (i % 2 ^ 64).toNat

/-- The conversion `int(u)` of a Go `uint64` (64-bit `int`, two's complement). -/
def uint64ToInt (u : Nat) : Int :=
  if u % 2 ^ 64 < 2 ^ 63 then ((u % 2 ^ 64 : Nat) : Int) else ((u % 2 ^ 64 : Nat) : Int) - 2 ^ 64

/-- The struct `unix.Kevent_t` (the `Udata` pointer is always nil in this code). -/
structure Kevent_t where
  Ident : Nat
  Filter : Int
  Flags : Nat
  Fflags : Nat
  Data : Int
  deriving DecidableEq, Repr

/-- The constant `unix.EVFILT_READ`. -/
def EVFILT_READ : Int := -1

/-- The constant `unix.EVFILT_WRITE`. -/
def EVFILT_WRITE : Int := -2

/-- The constant `unix.EV_ADD`. -/
def EV_ADD : Nat := 1

/-- The constant `unix.EV_DELETE`. -/
def EV_DELETE : Nat := 2

/-- Modelled from the spec: package `common` is not under src/.  The connection
state takes the two interest values of spec section 3 (`Read`, `Write`);
`EPollIN` is the value written by `conn.SetState(common.EPollIN)`. -/
inductive ConnState where
  | EPollIN
  | EPollOUT
  deriving DecidableEq, Repr

/-- The observable state of an `iface.IConnect`: what `GetFd`, `GetID`,
`GetTLSEnable` and `GetHandshakeCompleted` return, the state written by `SetState`
and the buffer written by `SetWriteBuff`. -/
structure Conn where
  fd : Int
  id : Int
  tlsEnable : Bool
  handshakeCompleted : Bool
  state : ConnState
  writeBuff : List Byte
  deriving DecidableEq, Repr

/-- An `iface.IMessage`: the value of `Len()` and the payload bytes. -/
structure Message where
  len : Int
  body : List Byte
  deriving DecidableEq, Repr

/-- One call made by the embedded code, as recorded in the trace. -/
inductive Call where
  /-- A registration call `unix.Kevent(epfd, changes, nil, nil)`. -/
  | kevent (epfd : Int) (changes : List Kevent_t)
  /-- The wait call `unix.Kevent(epfd, nil, p.Events, nil)`. -/
  | keventWait (epfd : Int)
  /-- The call `unix.Write(fd, data)`. -/
  | sysWrite (fd : Int) (data : List Byte)
  /-- The call `unix.Close(fd)`. -/
  | sysClose (fd : Int)
  /-- The call `unix.SetNonblock(fd, true)`. -/
  | setNonblock (fd : Int)
  /-- The call `time.Sleep(time.Hour)`. -/
  | sleepHour
  /-- The call `p.Remove(fd)` on the poller with the given `Epfd`. -/
  | pollerRemove (epfd : Int) (fd : Int)
  /-- The call `ConnectMgr.Get(key)`. -/
  | mgrGet (key : Int)
  /-- The call `ConnectMgr.Remove(conn)`. -/
  | mgrRemove (conn : Conn)
  /-- The call `ConnectMgr.ClearByEpFd(epfd)`. -/
  | clearByEpFd (epfd : Int)
  /-- The call `conn.Close()` through the interface. -/
  | connClose (conn : Conn)
  /-- The call `conn.GetWriteBuff()`. -/
  | getWriteBuff (conn : Conn)
  /-- The call `conn.SetWriteBuff(buf)`. -/
  | setWriteBuff (conn : Conn) (buf : List Byte)
  /-- The call `conn.SetState(st)`. -/
  | setState (conn : Conn) (st : ConnState)
  /-- The call `conn.SetHandshakeCompleted()`. -/
  | setHandshakeCompleted (conn : Conn)
  /-- The call `conn.GetPacker().ReadFull(fd)`. -/
  | readFull (conn : Conn) (fd : Int)
  /-- The send `emitCh <- util.NewRequest(conn, message)`. -/
  | emit (conn : Conn) (message : Message)
  /-- The call `c.Write(data)` of the connection. -/
  | connWrite (conn : Conn) (data : List Byte)
  /-- The call `c.hooks.OnClose(c)`. -/
  | hooksOnClose (conn : Conn)
  /-- The call `c.options.WebsocketHandler.Close(c)`. -/
  | handlerClose (conn : Conn)
  /-- The call `c.reset()` followed by `c.packetBuffer = nil`. -/
  | reset (conn : Conn)
  deriving DecidableEq, Repr

/-- The answers of the operating system and of the interface methods whose
implementations are outside the embedded files.  `none` is a nil error. -/
structure World where
  /-- Error of `unix.Kevent(epfd, changes, nil, nil)`. -/
  kevent : Int → List Kevent_t → Option GoError
  /-- Result `(n, err)` of `unix.Write(fd, data)`. -/
  sysWrite : Int → List Byte → Except GoError Nat
  /-- Error of `unix.Close(fd)`. -/
  sysClose : Int → Option GoError
  /-- Error of `unix.SetNonblock(fd, true)`. -/
  setNonblock : Int → Option GoError
  /-- Result of `ConnectMgr.Get(key)`; `none` is a nil connection. -/
  mgrGet : Int → Option Conn
  /-- Result `(dataBuff, empty)` of `conn.GetWriteBuff()`. -/
  getWriteBuff : Conn → List Byte × Bool
  /-- Result of `conn.GetPacker().ReadFull(fd)`. -/
  readFull : Conn → Int → Except GoError Message

/-- The struct `Poller`; its event buffer and manager are answered by the `World`. -/
structure Poller where
  Epfd : Int
  deriving DecidableEq, Repr

/-! ## The kqueue poller: operations -/

/-- The change `AddRead` submits: read filter, `EV_ADD`, `Data = int64(connID)`. -/
def addReadChange (fd connID : Int) : Kevent_t :=
  { Ident := intToUint64 fd, Filter := EVFILT_READ, Flags := EV_ADD, Fflags := 0, Data := connID }

/-- The change `AddWrite` submits: write filter, `EV_ADD`, `Data = int64(connID)`. -/
def addWriteChange (fd connID : Int) : Kevent_t :=
  { Ident := intToUint64 fd, Filter := EVFILT_WRITE, Flags := EV_ADD, Fflags := 0, Data := connID }

/-- The change with which `ModWrite` / `ModRead` delete the old filter. -/
def deleteChange (fd : Int) (filter : Int) : Kevent_t :=
  { Ident := intToUint64 fd, Filter := filter, Flags := EV_DELETE, Fflags := 0, Data := 0 }

/-- The method `Poller.AddRead` (kqueue.go, lines 38-50). -/
def Poller.AddRead (p : Poller) (w : World) (fd connID : Int) : Option GoError × List Call :=
  let changes := [addReadChange fd connID]
  (w.kevent p.Epfd changes, [Call.kevent p.Epfd changes])

/-- The method `Poller.AddWrite` (kqueue.go, lines 52-64). -/
def Poller.AddWrite (p : Poller) (w : World) (fd connID : Int) : Option GoError × List Call :=
  let changes := [addWriteChange fd connID]
  (w.kevent p.Epfd changes, [Call.kevent p.Epfd changes])

/-- The method `Poller.ModWrite` (kqueue.go, lines 66-87). -/
def Poller.ModWrite (p : Poller) (w : World) (fd connID : Int) : Option GoError × List Call :=
  let changes := [deleteChange fd EVFILT_READ]
  match w.kevent p.Epfd changes with
  | some err => (some err, [Call.kevent p.Epfd changes])
  | none =>
    let r := p.AddWrite w fd connID
    (r.1, Call.kevent p.Epfd changes :: r.2)

/-- The method `Poller.ModRead` (kqueue.go, lines 89-109). -/
def Poller.ModRead (p : Poller) (w : World) (fd connID : Int) : Option GoError × List Call :=
  let changes := [deleteChange fd EVFILT_WRITE]
  match w.kevent p.Epfd changes with
  | some err => (some err, [Call.kevent p.Epfd changes])
  | none =>
    let r := p.AddRead w fd connID
    (r.1, Call.kevent p.Epfd changes :: r.2)

/-- The method `Poller.Remove` (kqueue.go, lines 211-213): it returns nil and does
nothing else; the trace records that it was called. -/
def Poller.Remove (p : Poller) (fd : Int) : Option GoError × List Call :=
  (none, [Call.pollerRemove p.Epfd fd])

/-- The outcome of `ProceedWrite`: the returned error, the connection after the
call and the calls made. -/
structure WriteOutcome where
  err : Option GoError
  conn : Conn
  calls : List Call
  deriving DecidableEq, Repr

/-- The method `Poller.ProceedWrite` (kqueue.go, lines 224-252). -/
def Poller.ProceedWrite (p : Poller) (w : World) (conn : Conn) : WriteOutcome :=
  let (dataBuff, empty) := w.getWriteBuff conn
  let t0 := [Call.getWriteBuff conn]
  let step2 : Except (GoError × List Call) (Conn × List Call) :=
    if empty then
      let r := p.ModRead w conn.fd conn.id
      match r.1 with
      | some err => .error (err, t0 ++ r.2)
      | none => .ok ({ conn with state := ConnState.EPollIN },
                     t0 ++ r.2 ++ [Call.setState conn ConnState.EPollIN])
    else .ok (conn, t0)
  match step2 with
  | .error (err, t) => { err := some err, conn := conn, calls := t }
  | .ok (conn1, t1) =>
    match w.sysWrite conn.fd dataBuff with
    | .error err =>
      { err := some err, conn := conn1, calls := t1 ++ [Call.sysWrite conn.fd dataBuff] }
    | .ok n =>
      { err := none
        conn := { conn1 with writeBuff := dataBuff.drop n }
        calls := t1 ++ [Call.sysWrite conn.fd dataBuff, Call.setWriteBuff conn (dataBuff.drop n)] }

/-- The method `Poller.ClearByConn` (kqueue.go, lines 254-259). -/
def Poller.ClearByConn (p : Poller) (conn : Conn) : List Call :=
  [Call.connClose conn] ++ (p.Remove conn.fd).2 ++ [Call.mgrRemove conn]

/-- The body of the `for i := 0; i < n; i++` loop of `Poller.Wait`
(kqueue.go, lines 131-207) for one event; every path ends in `continue` or
falls off the end of the body, so the result is the trace of the iteration. -/
def Poller.handleEvent (p : Poller) (w : World) (event : Kevent_t) : List Call :=
  let connFd := uint64ToInt event.Ident
  match w.mgrGet connFd with
  | none =>
    [Call.mgrGet connFd, Call.sysClose connFd] ++ (p.Remove connFd).2
  | some conn =>
    if event.Filter = EVFILT_WRITE then
      let r := p.ProceedWrite w conn
      match r.err with
      | some _ =>
        [Call.mgrGet connFd] ++ r.calls ++ [Call.connClose conn] ++ (p.Remove connFd).2
          ++ [Call.mgrRemove conn]
      | none => [Call.mgrGet connFd] ++ r.calls
    else if conn.tlsEnable && conn.handshakeCompleted == false then
      let t := [Call.mgrGet connFd, Call.sleepHour, Call.setHandshakeCompleted conn,
                Call.setNonblock connFd]
      match w.setNonblock connFd with
      | some _ => t ++ p.ClearByConn conn
      | none => t
    else
      let t := [Call.mgrGet connFd, Call.readFull conn connFd]
      match w.readFull conn connFd with
      | .error err =>
        if err = GoError.EOF ∨ err = GoError.HeadBytesLengthFail
            ∨ err = GoError.BodyLenExceedLimit then
          t ++ [Call.connClose conn] ++ (p.Remove connFd).2 ++ [Call.mgrRemove conn]
        else t
      | .ok message =>
        if message.len ≤ 0 then t
        else t ++ [Call.emit conn message]

/-- One return of the wait call `unix.Kevent(p.Epfd, nil, p.Events, nil)`: its
error, its count `n`, and the event buffer `p.Events` after the call, each entry
with the world that answers while that entry is handled. -/
structure Round where
  err : Option GoError
  n : Int
  events : List (Kevent_t × World)

/-- The inner `for` loop of `Poller.Wait` over the entries it visits. -/
def Poller.processEvents (p : Poller) : List (Kevent_t × World) → List Call
  | [] => []
  | (event, w) :: rest => p.handleEvent w event ++ p.processEvents rest

/-- What is known of a run of `Poller.Wait` after a finite number of returns of
the wait call: whether `Wait` has returned, and the calls made so far. -/
structure WaitOutcome where
  returned : Bool
  calls : List Call
  deriving DecidableEq, Repr

/-- The method `Poller.Wait` (kqueue.go, lines 111-209), run against the successive
returns of the wait call.  When the list is used up `Wait` is blocked in the wait
call and has not returned. -/
def Poller.Wait (p : Poller) : List Round → WaitOutcome
  | [] => { returned := false, calls := [] }
  | r :: rest =>
    match r.err with
    | some err =>
      if err = GoError.EINTR ∨ err = GoError.EAGAIN then
        let res := p.Wait rest
        { returned := res.returned, calls := Call.keventWait p.Epfd :: res.calls }
      else
        { returned := true, calls := [Call.keventWait p.Epfd, Call.clearByEpFd p.Epfd] }
    | none =>
      let res := p.Wait rest
      { returned := res.returned
        calls := Call.keventWait p.Epfd :: (p.processEvents (r.events.take r.n.toNat) ++ res.calls) }

/-! ## `websocketProtocol.Close` -/

/-- The fields of a `websocketProtocol` that `Close` reads: the embedded base
connection, whether `c.hooks` is non-nil, and `c.isHandleShake`. -/
structure WsConn where
  base : Conn
  hasHooks : Bool
  isHandleShake : Bool
  deriving DecidableEq, Repr

/-- The method `websocketProtocol.Close` (websocket_ctrl.go, lines 72-99), for a
connection registered with poller `p`. -/
def WsConn.Close (c : WsConn) (p : Poller) (w : World) : Option GoError × List Call :=
  let t1 := (p.Remove c.base.fd).2 ++ [Call.mgrRemove c.base]
  let t2 := [Call.connWrite c.base [136, 2, 3, 232]]
  let err := w.sysClose c.base.fd
  let t3 := [Call.sysClose c.base.fd]
  let t4 := if c.hasHooks && err == none then [Call.hooksOnClose c.base] else []
  let t5 := if c.isHandleShake then [Call.handlerClose c.base] else []
  (err, t1 ++ t2 ++ t3 ++ t4 ++ t5 ++ [Call.reset c.base])

/-! ## Observations on traces and sample worlds -/

/-- The number of `unix.Write` attempts in a trace. -/
def writeAttempts (t : List Call) : Nat :=
  (t.filter (fun c => match c with
    | Call.sysWrite _ _ => true
    | _ => false)).length

/-- The registration calls (`unix.Kevent` with a change list) in a trace. -/
def registrations (t : List Call) : List (Int × List Kevent_t) :=
  t.filterMap (fun c => match c with
    | Call.kevent epfd changes => some (epfd, changes)
    | _ => none)

/-- The requests sent on the outbound channel in a trace. -/
def published (t : List Call) : List (Conn × Message) :=
  t.filterMap (fun c => match c with
    | Call.emit conn message => some (conn, message)
    | _ => none)

/-- The keys with which `ConnectMgr.Get` is called in a trace. -/
def lookups (t : List Call) : List Int :=
  t.filterMap (fun c => match c with
    | Call.mgrGet key => some key
    | _ => none)

/-- The poller fds with which `ConnectMgr.ClearByEpFd` is called in a trace. -/
def bulkClears (t : List Call) : List Int :=
  t.filterMap (fun c => match c with
    | Call.clearByEpFd epfd => some epfd
    | _ => none)

/-- The wait call failed with an error other than `EINTR` and `EAGAIN`. -/
def Round.hardError (r : Round) : Bool :=
  match r.err with
  | some err => !(decide (err = GoError.EINTR) || decide (err = GoError.EAGAIN))
  | none => false

/-- Modelled from the spec: the base connection's `GetWriteBuff` is not under
src/.  It returns the pending outbound byte queue of spec section 3 and reports
`empty` exactly when that queue holds no byte. -/
def Conn.GetWriteBuff (c : Conn) : List Byte × Bool :=
  (c.writeBuff, c.writeBuff.isEmpty)

/-- A sample world: the manager knows `known` under the key `known.id` only, every
registration call succeeds unless it deletes a filter and `deleteFails` is set (then
`ENOENT`), the socket accepts `accept` bytes of each write, and `ReadFull` answers
`read`. -/
def sampleWorld (known : Conn) (deleteFails : Bool) (accept : Nat)
    (read : Except GoError Message) : World :=
  { kevent := fun _ changes =>
      if deleteFails && changes.any (fun ch => ch.Flags == EV_DELETE) then some GoError.ENOENT
      else none
    sysWrite := fun _ data => .ok (min accept data.length)
    sysClose := fun _ => none
    setNonblock := fun _ => none
    mgrGet := fun key => if key = known.id then some known else none
    getWriteBuff := Conn.GetWriteBuff
    readFull := fun _ _ => read }

/-- A sample connection: fd 7, identity 3, no TLS, interest `Write`, with the
given pending write buffer. -/
def sampleConn (buf : List Byte) : Conn :=
  { fd := 7, id := 3, tlsEnable := false, handshakeCompleted := false,
    state := ConnState.EPollOUT, writeBuff := buf }

/-- A sample connection whose identity equals its fd (both 7). -/
def sameKeyConn : Conn :=
  { fd := 7, id := 7, tlsEnable := false, handshakeCompleted := false,
    state := ConnState.EPollIN, writeBuff := [] }

/-- A sample message of five bytes. -/
def sampleMessage : Message :=
  { len := 5, body := [104, 101, 108, 108, 111] }

/-- The event the kernel reports for a filter registered on `fd`: the `Ident` of
the registration and its filter; `data` is whatever the kernel puts in `Data`. -/
def readyEvent (fd : Int) (filter : Int) (data : Int) : Kevent_t :=
  { Ident := intToUint64 fd, Filter := filter, Flags := EV_ADD, Fflags := 0, Data := data }

/-- Sample returns of the wait call before a hard error: an interrupted call,
then a call reporting two events (a stale fd 9 and an end-of-stream on fd 7; a
third buffer entry lies beyond the count). -/
def sampleRoundsBefore : List Round :=
  [ { err := some GoError.EINTR, n := -1, events := [] },
    { err := none, n := 2,
      events :=
        [ (readyEvent 9 EVFILT_READ 0, sampleWorld sameKeyConn false 0 (.error GoError.EOF)),
          (readyEvent 7 EVFILT_READ 0, sampleWorld sameKeyConn false 0 (.error GoError.EOF)),
          (readyEvent 7 EVFILT_WRITE 0, sampleWorld sameKeyConn false 0 (.error GoError.EOF)) ] } ]

/-- A sample return of the wait call with the hard error `EBADF`; the event buffer
still holds an entry of an earlier call. -/
def sampleRoundHard : Round :=
  { err := some GoError.EBADF, n := -1,
    events := [(readyEvent 7 EVFILT_READ 0, sampleWorld sameKeyConn false 0 (.ok sampleMessage))] }

/-- A sample return of the wait call that would follow, had `Wait` not returned. -/
def sampleRoundsAfter : List Round :=
  [ { err := none, n := 1,
      events := [(readyEvent 7 EVFILT_READ 0, sampleWorld sameKeyConn false 0 (.ok sampleMessage))] } ]

/-! ## `websocketProtocol.push` and `websocketProtocol.pong` -/

/-- One `Write` made by `push`: `c.tlsLayer.Write(data)` or `c.Write(data)`. -/
inductive PushCall where
  | tlsWrite (data : List Byte)
  | connWrite (data : List Byte)
  deriving DecidableEq, Repr

/-- The byte strings handed to a `Write` in a trace of `push`, in order. -/
def pushedData (t : List PushCall) : List (List Byte) :=
  t.map (fun c => match c with
    | PushCall.tlsWrite data => data
    | PushCall.connWrite data => data)

/-- The answers `(n, err)` of the two writers `push` can call. -/
structure PushWorld where
  /-- Result of `c.tlsLayer.Write(data)`. -/
  tlsWrite : List Byte → Except GoError Nat
  /-- Result of `c.Write(data)`. -/
  connWrite : List Byte → Except GoError Nat

/-- The method `websocketProtocol.push` (websocket_ctrl.go, lines 13-20). -/
def WsConn.push (c : WsConn) (pw : PushWorld) (dataBuff : List Byte) :
    Except GoError Nat × List PushCall :=
  if c.base.tlsEnable then
    (pw.tlsWrite dataBuff, [PushCall.tlsWrite dataBuff])
  else
    (pw.connWrite dataBuff, [PushCall.connWrite dataBuff])

/-- The outcome of `pong`: the returned message (`none` is nil), the returned error
and the writes made. -/
structure PongOutcome where
  message : Option Message
  err : Option GoError
  calls : List PushCall
  deriving DecidableEq, Repr

/-- The method `websocketProtocol.pong` (websocket_ctrl.go, lines 107-130);
`nextFrame` is the result `(message, err)` of the call `c.nextFrame()`, and
`message.Bytes()` is the body of the message. -/
def WsConn.pong (c : WsConn) (pw : PushWorld) (nextFrame : Except GoError Message) :
    PongOutcome :=
  match nextFrame with
  | .error err => { message := none, err := some err, calls := [] }
  | .ok message =>
    let firstByte := toUint8 (10 ||| 128)
    match encode firstByte message.body with
    | .error err => { message := none, err := some err, calls := [] }
    | .ok enc =>
      let r := c.push pw enc
      match r.1 with
      | .error err => { message := none, err := some err, calls := r.2 }
      | .ok _ => { message := none, err := none, calls := r.2 }

/-- A sample push world: both writers accept every byte. -/
def samplePushWorld : PushWorld :=
  { tlsWrite := fun data => .ok data.length
    connWrite := fun data => .ok data.length }

/-- A sample WebSocket connection past the handshake, without TLS. -/
def sampleWsConn : WsConn :=
  { base := sameKeyConn, hasHooks := false, isHandleShake := true }

/-! ## Lemmas on the encoder -/

theorem beNat_putUint16 (v : Nat) (h : v < 2 ^ 16) : beNat (putUint16 v) = v := by
  simp only [beNat, putUint16, toUint8, List.foldl_cons, List.foldl_nil,
    Nat.shiftRight_eq_div_pow]
  omega

theorem beNat_putUint64 (v : Nat) (h : v < 2 ^ 64) : beNat (putUint64 v) = v := by
  simp only [beNat, putUint64, toUint8, List.foldl_cons, List.foldl_nil,
    Nat.shiftRight_eq_div_pow]
  omega

theorem encode_small (f : Byte) (bs : List Byte) (h : bs.length ≤ 125) :
    encode f bs = .ok (f :: toUint8 bs.length :: bs) := by
  simp [encode, binaryWrite, BinData.encodeBE, h, bind, Except.bind, pure, Except.pure]

theorem encode_medium (f : Byte) (bs : List Byte) (h1 : 126 ≤ bs.length)
    (h2 : bs.length ≤ 65535) :
    encode f bs = .ok (f :: toUint8 126 :: (putUint16 (toUint16 bs.length) ++ bs)) := by
  have h3 : ¬ bs.length ≤ 125 := by omega
  simp [encode, binaryWrite, BinData.encodeBE, h1, h2, h3, bind, Except.bind, pure,
    Except.pure]

theorem encode_large (f : Byte) (bs : List Byte) (h : 65535 < bs.length) :
    encode f bs = .ok (f :: toUint8 127 :: (putUint64 (toUint64 bs.length) ++ bs)) := by
  have h3 : ¬ bs.length ≤ 125 := by omega
  have h4 : ¬ bs.length ≤ 65535 := by omega
  simp [encode, binaryWrite, BinData.encodeBE, h3, h4, bind, Except.bind, pure,
    Except.pure]

theorem decodeFrame_unmasked (b0 b1 : Byte) (ext bs : List Byte) (k : Nat)
    (hmask : b1.val < 128)
    (hext : (b1.val = 126 ∧ k = 2) ∨ (b1.val = 127 ∧ k = 8) ∨
      (b1.val < 126 ∧ k = 0 ∧ bs.length = b1.val))
    (hk : ext.length = k) (hv : k ≠ 0 → beNat ext = bs.length) :
    decodeFrame (b0 :: b1 :: (ext ++ bs)) =
      some ({ fin := decide (128 ≤ b0.val), opcode := b0.val % 16, payload := bs }, []) := by
  have hm : b1.val % 128 = b1.val := Nat.mod_eq_of_lt hmask
  have hnm : ¬ 128 ≤ b1.val := by omega
  rcases hext with ⟨h1, h2⟩ | ⟨h1, h2⟩ | ⟨h1, h2, h3⟩
  · subst h2
    have hb := hv (by decide)
    simp [decodeFrame, hm, h1, hk, hb, hnm, List.take_append_of_le_length,
      List.drop_append_of_le_length]
  · subst h2
    have hb := hv (by decide)
    simp [decodeFrame, hm, h1, hk, hb, hnm, List.take_append_of_le_length,
      List.drop_append_of_le_length]
  · subst h2
    have he : ext = [] := List.length_eq_zero.mp hk
    subst he
    have h126 : ¬ b1.val = 126 := by omega
    have h127 : ¬ b1.val = 127 := by omega
    simp only [decodeFrame, List.nil_append, hm]
    rw [if_neg h126, if_neg h127]
    have hnl : ¬ 128 ≤ bs.length := by omega
    simp [hnl, h3.symm]

theorem toUint8_val_of_lt (v : Nat) (h : v < 256) : (toUint8 v).val = v := by
  simp [toUint8, Nat.mod_eq_of_lt h]

theorem toUint16_of_lt (v : Nat) (h : v < 2 ^ 16) : toUint16 v = v := by
  unfold toUint16
  exact Nat.mod_eq_of_lt h

theorem toUint64_of_lt (v : Nat) (h : v < 2 ^ 64) : toUint64 v = v := by
  unfold toUint64
  exact Nat.mod_eq_of_lt h

/-! ## The encoder: claims C1 and C2 -/

/-- C1: for every first byte `f` and every payload `bs` (of a length a Go slice can
have, below `2^63`), `encode f bs` succeeds and returns `f`, then the minimal-width
length field, then `bs` unchanged: for `n ≤ 125` the single byte `n` (length `n+2`);
for `126 ≤ n ≤ 65535` the byte 126 and `n` as 2 big-endian bytes (length `n+4`);
otherwise the byte 127 and `n` as 8 big-endian bytes (length `n+10`).  The mask bit
of the output is 0 in every case. -/
theorem encode_layout (f : Byte) (bs : List Byte) (hlen : bs.length < 2 ^ 63) :
    ∃ out, encode f bs = .ok out ∧ maskBit out = false ∧
      (bs.length ≤ 125 →
        ∃ l : Byte, l.val = bs.length ∧ out = f :: l :: bs ∧ out.length = bs.length + 2) ∧
      (126 ≤ bs.length ∧ bs.length ≤ 65535 →
        ∃ ext, ext.length = 2 ∧ beNat ext = bs.length ∧
          out = f :: 126 :: (ext ++ bs) ∧ out.length = bs.length + 4) ∧
      (65535 < bs.length →
        ∃ ext, ext.length = 8 ∧ beNat ext = bs.length ∧
          out = f :: 127 :: (ext ++ bs) ∧ out.length = bs.length + 10) := by
  by_cases h1 : bs.length ≤ 125
  · refine ⟨_, encode_small f bs h1, ?_, ?_, ?_, ?_⟩
    · have hv := toUint8_val_of_lt bs.length (by omega)
      simp only [maskBit, hv, decide_eq_false_iff_not]
      omega
    · intro _
      exact ⟨toUint8 bs.length, toUint8_val_of_lt _ (by omega), rfl, by simp⟩
    · intro h; omega
    · intro h; omega
  · by_cases h2 : bs.length ≤ 65535
    · refine ⟨_, encode_medium f bs (by omega) h2, ?_, ?_, ?_, ?_⟩
      · rfl
      · intro h; omega
      · intro _
        have h16 : bs.length < 2 ^ 16 := by omega
        refine ⟨putUint16 (toUint16 bs.length), rfl, ?_, rfl, ?_⟩
        · rw [toUint16_of_lt _ h16]; exact beNat_putUint16 _ h16
        · simp [putUint16]
      · intro h; omega
    · refine ⟨_, encode_large f bs (by omega), ?_, ?_, ?_, ?_⟩
      · rfl
      · intro h; omega
      · intro h; omega
      · intro _
        have h64 : bs.length < 2 ^ 64 := by omega
        refine ⟨putUint64 (toUint64 bs.length), rfl, ?_, rfl, ?_⟩
        · rw [toUint64_of_lt _ h64]; exact beNat_putUint64 _ h64
        · simp [putUint64]

/-- Witness for C1 at the payload of 126 zero bytes under first byte 0x82. -/
theorem encode_layout_witness :
    (List.replicate 126 (0 : Byte)).length < 2 ^ 63 ∧
    ∃ out, encode 130 (List.replicate 126 (0 : Byte)) = .ok out ∧ maskBit out = false ∧
      ((List.replicate 126 (0 : Byte)).length ≤ 125 →
        ∃ l : Byte, l.val = (List.replicate 126 (0 : Byte)).length ∧
          out = 130 :: l :: List.replicate 126 (0 : Byte) ∧
          out.length = (List.replicate 126 (0 : Byte)).length + 2) ∧
      (126 ≤ (List.replicate 126 (0 : Byte)).length ∧
          (List.replicate 126 (0 : Byte)).length ≤ 65535 →
        ∃ ext, ext.length = 2 ∧ beNat ext = (List.replicate 126 (0 : Byte)).length ∧
          out = 130 :: 126 :: (ext ++ List.replicate 126 (0 : Byte)) ∧
          out.length = (List.replicate 126 (0 : Byte)).length + 4) ∧
      (65535 < (List.replicate 126 (0 : Byte)).length →
        ∃ ext, ext.length = 8 ∧ beNat ext = (List.replicate 126 (0 : Byte)).length ∧
          out = 130 :: 127 :: (ext ++ List.replicate 126 (0 : Byte)) ∧
          out.length = (List.replicate 126 (0 : Byte)).length + 10) :=
  ⟨by simp, encode_layout 130 (List.replicate 126 0) (by simp)⟩

/-- C2: for every first byte `f` and payload `bs` (of a length a Go slice can have),
reading `encode f bs` back by the frame layout consumes the whole output and
recovers the fin bit and opcode of `f` and the payload `bs`. -/
theorem encode_decode_roundtrip (f : Byte) (bs : List Byte) (hlen : bs.length < 2 ^ 63) :
    ∃ out, encode f bs = .ok out ∧
      decodeFrame out =
        some ({ fin := decide (128 ≤ f.val), opcode := f.val % 16, payload := bs }, []) := by
  by_cases h1 : bs.length ≤ 125
  · refine ⟨_, encode_small f bs h1, ?_⟩
    have hv := toUint8_val_of_lt bs.length (by omega)
    have := decodeFrame_unmasked f (toUint8 bs.length) [] bs 0 (by omega)
      (Or.inr (Or.inr ⟨by omega, rfl, hv.symm⟩)) rfl (fun h => absurd rfl h)
    simpa using this
  · by_cases h2 : bs.length ≤ 65535
    · refine ⟨_, encode_medium f bs (by omega) h2, ?_⟩
      have h16 : bs.length < 2 ^ 16 := by omega
      refine decodeFrame_unmasked f (toUint8 126) _ bs 2 (by decide)
        (Or.inl ⟨by decide, rfl⟩) rfl (fun _ => ?_)
      rw [toUint16_of_lt _ h16]; exact beNat_putUint16 _ h16
    · refine ⟨_, encode_large f bs (by omega), ?_⟩
      have h64 : bs.length < 2 ^ 64 := by omega
      refine decodeFrame_unmasked f (toUint8 127) _ bs 8 (by decide)
        (Or.inr (Or.inl ⟨by decide, rfl⟩)) rfl (fun _ => ?_)
      rw [toUint64_of_lt _ h64]; exact beNat_putUint64 _ h64

/-- Witness for C2 at the payload of 300 zero bytes under first byte 0x81. -/
theorem encode_decode_roundtrip_witness :
    (List.replicate 300 (0 : Byte)).length < 2 ^ 63 ∧
    ∃ out, encode 129 (List.replicate 300 (0 : Byte)) = .ok out ∧
      decodeFrame out =
        some ({ fin := decide (128 ≤ (129 : Byte).val), opcode := (129 : Byte).val % 16,
                payload := List.replicate 300 (0 : Byte) }, []) :=
  ⟨by rw [List.length_replicate]; norm_num,
    encode_decode_roundtrip 129 (List.replicate 300 0)
      (by rw [List.length_replicate]; norm_num)⟩

/-! ## Lemmas on `ProceedWrite` -/

theorem ProceedWrite_of_nonempty (p : Poller) (w : World) (conn : Conn) (b : List Byte)
    (k : Nat) (hb : w.getWriteBuff conn = (b, false)) (hw : w.sysWrite conn.fd b = .ok k) :
    p.ProceedWrite w conn =
      { err := none
        conn := { conn with writeBuff := b.drop k }
        calls := [Call.getWriteBuff conn, Call.sysWrite conn.fd b,
                  Call.setWriteBuff conn (b.drop k)] } := by
  simp [Poller.ProceedWrite, hb, hw]

theorem ProceedWrite_of_empty_ok (p : Poller) (w : World) (conn : Conn) (b : List Byte)
    (k : Nat) (hb : w.getWriteBuff conn = (b, true))
    (hm : (p.ModRead w conn.fd conn.id).1 = none) (hw : w.sysWrite conn.fd b = .ok k) :
    p.ProceedWrite w conn =
      { err := none
        conn := { conn with state := ConnState.EPollIN, writeBuff := b.drop k }
        calls := [Call.getWriteBuff conn] ++ (p.ModRead w conn.fd conn.id).2 ++
          [Call.setState conn ConnState.EPollIN, Call.sysWrite conn.fd b,
           Call.setWriteBuff conn (b.drop k)] } := by
  simp [Poller.ProceedWrite, hb, hw, hm]

theorem ProceedWrite_of_empty_fail (p : Poller) (w : World) (conn : Conn) (b : List Byte)
    (err : GoError) (hb : w.getWriteBuff conn = (b, true))
    (hm : (p.ModRead w conn.fd conn.id).1 = some err) :
    p.ProceedWrite w conn =
      { err := some err, conn := conn,
        calls := [Call.getWriteBuff conn] ++ (p.ModRead w conn.fd conn.id).2 } := by
  simp [Poller.ProceedWrite, hb, hm]

theorem ModRead_of_delete_fail (p : Poller) (w : World) (fd connID : Int) (err : GoError)
    (h : w.kevent p.Epfd [deleteChange fd EVFILT_WRITE] = some err) :
    p.ModRead w fd connID = (some err, [Call.kevent p.Epfd [deleteChange fd EVFILT_WRITE]]) := by
  simp [Poller.ModRead, h]

theorem ModRead_of_delete_ok (p : Poller) (w : World) (fd connID : Int)
    (h : w.kevent p.Epfd [deleteChange fd EVFILT_WRITE] = none) :
    p.ModRead w fd connID =
      (w.kevent p.Epfd [addReadChange fd connID],
       [Call.kevent p.Epfd [deleteChange fd EVFILT_WRITE],
        Call.kevent p.Epfd [addReadChange fd connID]]) := by
  simp [Poller.ModRead, Poller.AddRead, h]

theorem ModWrite_of_delete_fail (p : Poller) (w : World) (fd connID : Int) (err : GoError)
    (h : w.kevent p.Epfd [deleteChange fd EVFILT_READ] = some err) :
    p.ModWrite w fd connID = (some err, [Call.kevent p.Epfd [deleteChange fd EVFILT_READ]]) := by
  simp [Poller.ModWrite, h]

theorem ModWrite_of_delete_ok (p : Poller) (w : World) (fd connID : Int)
    (h : w.kevent p.Epfd [deleteChange fd EVFILT_READ] = none) :
    p.ModWrite w fd connID =
      (w.kevent p.Epfd [addWriteChange fd connID],
       [Call.kevent p.Epfd [deleteChange fd EVFILT_READ],
        Call.kevent p.Epfd [addWriteChange fd connID]]) := by
  simp [Poller.ModWrite, Poller.AddWrite, h]

theorem writeAttempts_ModRead (p : Poller) (w : World) (fd connID : Int) :
    writeAttempts (p.ModRead w fd connID).2 = 0 := by
  cases h : w.kevent p.Epfd [deleteChange fd EVFILT_WRITE] with
  | none => rw [ModRead_of_delete_ok p w fd connID h]; rfl
  | some err => rw [ModRead_of_delete_fail p w fd connID err h]; rfl

theorem writeAttempts_append (a b : List Call) :
    writeAttempts (a ++ b) = writeAttempts a + writeAttempts b := by
  simp [writeAttempts, List.filter_append]

theorem registrations_append (a b : List Call) :
    registrations (a ++ b) = registrations a ++ registrations b := by
  simp [registrations, List.filterMap_append]

theorem ProceedWrite_of_nonempty_err (p : Poller) (w : World) (conn : Conn) (b : List Byte)
    (err : GoError) (hb : w.getWriteBuff conn = (b, false))
    (hw : w.sysWrite conn.fd b = .error err) :
    p.ProceedWrite w conn =
      { err := some err, conn := conn,
        calls := [Call.getWriteBuff conn, Call.sysWrite conn.fd b] } := by
  simp [Poller.ProceedWrite, hb, hw]

theorem ProceedWrite_of_empty_err (p : Poller) (w : World) (conn : Conn) (b : List Byte)
    (err : GoError) (hb : w.getWriteBuff conn = (b, true))
    (hm : (p.ModRead w conn.fd conn.id).1 = none) (hw : w.sysWrite conn.fd b = .error err) :
    p.ProceedWrite w conn =
      { err := some err
        conn := { conn with state := ConnState.EPollIN }
        calls := [Call.getWriteBuff conn] ++ (p.ModRead w conn.fd conn.id).2 ++
          [Call.setState conn ConnState.EPollIN, Call.sysWrite conn.fd b] } := by
  simp [Poller.ProceedWrite, hb, hw, hm]

/-! ## The write drain: claims C3 and C4 -/

theorem sysWrite_not_mem_ModRead (p : Poller) (w : World) (fd connID : Int) (fd1 : Int)
    (d : List Byte) : Call.sysWrite fd1 d ∉ (p.ModRead w fd connID).2 := by
  cases h : w.kevent p.Epfd [deleteChange fd EVFILT_WRITE] with
  | none => rw [ModRead_of_delete_ok p w fd connID h]; simp
  | some err => rw [ModRead_of_delete_fail p w fd connID err h]; simp

/-- The one path of `ProceedWrite` without a write: the buffer is reported empty
and `ModRead` fails (here with `ENOENT`); the error of `ModRead` is returned and no
write attempt is made. -/
theorem ProceedWrite_ModRead_failure_example :
    ((⟨5⟩ : Poller).ProceedWrite (sampleWorld (sampleConn []) true 0 (.error GoError.EOF))
        (sampleConn [])).err = some GoError.ENOENT ∧
    writeAttempts ((⟨5⟩ : Poller).ProceedWrite
        (sampleWorld (sampleConn []) true 0 (.error GoError.EOF)) (sampleConn [])).calls = 0 :=
  ⟨by decide, by decide⟩

/-- C3, as stated, fails: a connection with an empty pending buffer
(`GetWriteBuff` reports `empty`), a socket whose write of that buffer would succeed
with `k = 0`, and a failing `ModRead`: `ProceedWrite` returns the error of
`ModRead`, makes no write attempt and never calls `SetWriteBuff`. -/
theorem ProceedWrite_single_write_counterexample :
    (sampleWorld (sampleConn []) true 0 (.error GoError.EOF)).getWriteBuff (sampleConn []) =
      ([], true) ∧
    (⟨5⟩ : Poller).ProceedWrite (sampleWorld (sampleConn []) true 0 (.error GoError.EOF))
        (sampleConn []) =
      { err := some GoError.ENOENT, conn := sampleConn [],
        calls := [Call.getWriteBuff (sampleConn []),
                  Call.kevent 5 [deleteChange 7 EVFILT_WRITE]] } ∧
    ¬ ∀ (p : Poller) (w : World) (conn : Conn) (b : List Byte) (e : Bool) (k : Nat),
        w.getWriteBuff conn = (b, e) → w.sysWrite conn.fd b = .ok k → k ≤ b.length →
        (p.ProceedWrite w conn).err = none ∧
        writeAttempts (p.ProceedWrite w conn).calls = 1 ∧
        (p.ProceedWrite w conn).conn.writeBuff = b.drop k := by
  refine ⟨by decide, by decide, fun h => ?_⟩
  have h0 := h ⟨5⟩ (sampleWorld (sampleConn []) true 0 (.error GoError.EOF)) (sampleConn [])
    [] true 0 rfl rfl (Nat.le_refl _)
  exact absurd h0.1 (by decide)

/-- C3, amended: for every connection whose pending write buffer returned by
`GetWriteBuff` is `b`, if the buffer is not reported empty, or it is and `ModRead`
succeeds, and the socket accepts `k ≤ len b` bytes of a write of `b`, then
`ProceedWrite` makes exactly one write attempt, the write of `b` on the
connection's fd, followed at once by `SetWriteBuff(b[k:])`, and returns nil: the
`k` accepted bytes followed by the kept `len b - k` bytes are `b`, in order.  When
the buffer is reported empty and `ModRead` fails, `ProceedWrite` returns the error
of `ModRead` after the calls of `ModRead` alone and leaves the connection as it
was. -/
theorem ProceedWrite_keeps_remainder (p : Poller) (w : World) (conn : Conn)
    (b : List Byte) (e : Bool) (k : Nat)
    (hb : w.getWriteBuff conn = (b, e))
    (hmod : e = true → (p.ModRead w conn.fd conn.id).1 = none)
    (hw : w.sysWrite conn.fd b = .ok k) (hk : k ≤ b.length) :
    (p.ProceedWrite w conn).err = none ∧
    writeAttempts (p.ProceedWrite w conn).calls = 1 ∧
    Call.sysWrite conn.fd b ∈ (p.ProceedWrite w conn).calls ∧
    (∃ before, writeAttempts before = 0 ∧
      (p.ProceedWrite w conn).calls =
        before ++ [Call.sysWrite conn.fd b, Call.setWriteBuff conn (b.drop k)]) ∧
    Call.setWriteBuff conn (b.drop k) ∈ (p.ProceedWrite w conn).calls ∧
    (p.ProceedWrite w conn).conn.writeBuff = b.drop k ∧
    (p.ProceedWrite w conn).conn.writeBuff.length = b.length - k ∧
    (b.take k).length = k ∧
    b.take k ++ (p.ProceedWrite w conn).conn.writeBuff = b ∧
    (∀ (w1 : World) (conn1 : Conn) (b1 : List Byte) (err : GoError),
      w1.getWriteBuff conn1 = (b1, true) →
      (p.ModRead w1 conn1.fd conn1.id).1 = some err →
      p.ProceedWrite w1 conn1 =
        { err := some err, conn := conn1,
          calls := [Call.getWriteBuff conn1] ++ (p.ModRead w1 conn1.fd conn1.id).2 } ∧
      writeAttempts (p.ProceedWrite w1 conn1).calls = 0) := by
  have htake : (b.take k).length = k := by simp [hk]
  have hfail : ∀ (w1 : World) (conn1 : Conn) (b1 : List Byte) (err : GoError),
      w1.getWriteBuff conn1 = (b1, true) →
      (p.ModRead w1 conn1.fd conn1.id).1 = some err →
      p.ProceedWrite w1 conn1 =
        { err := some err, conn := conn1,
          calls := [Call.getWriteBuff conn1] ++ (p.ModRead w1 conn1.fd conn1.id).2 } ∧
      writeAttempts (p.ProceedWrite w1 conn1).calls = 0 := by
    intro w1 conn1 b1 err h1 h2
    have h3 := ProceedWrite_of_empty_fail p w1 conn1 b1 err h1 h2
    refine ⟨h3, ?_⟩
    rw [h3]
    simp only [writeAttempts_append, writeAttempts_ModRead]
    rfl
  cases e with
  | false =>
    rw [ProceedWrite_of_nonempty p w conn b k hb hw]
    refine ⟨rfl, rfl, by simp, ⟨[Call.getWriteBuff conn], rfl, rfl⟩, by simp, rfl, by simp,
      htake, by simp, hfail⟩
  | true =>
    rw [ProceedWrite_of_empty_ok p w conn b k hb (hmod rfl) hw]
    refine ⟨rfl, ?_, by simp, ⟨[Call.getWriteBuff conn] ++ (p.ModRead w conn.fd conn.id).2
      ++ [Call.setState conn ConnState.EPollIN], ?_, by simp⟩, by simp, rfl, by simp,
      htake, by simp, hfail⟩
    · simp only [writeAttempts_append, writeAttempts_ModRead]
      rfl
    · simp only [writeAttempts_append, writeAttempts_ModRead]
      rfl

/-- Witness for C3 (amended): five pending bytes of which the socket accepts two,
and an empty buffer with a succeeding `ModRead`. -/
theorem ProceedWrite_keeps_remainder_witness :
    ((⟨5⟩ : Poller).ProceedWrite (sampleWorld (sampleConn [1, 2, 3, 4, 5]) false 2
        (.error GoError.EOF)) (sampleConn [1, 2, 3, 4, 5])).conn.writeBuff = [3, 4, 5] ∧
    writeAttempts ((⟨5⟩ : Poller).ProceedWrite (sampleWorld (sampleConn []) false 0
        (.error GoError.EOF)) (sampleConn [])).calls = 1 :=
  ⟨(ProceedWrite_keeps_remainder ⟨5⟩
      (sampleWorld (sampleConn [1, 2, 3, 4, 5]) false 2 (.error GoError.EOF))
      (sampleConn [1, 2, 3, 4, 5]) [1, 2, 3, 4, 5] false 2 rfl
      (fun h => absurd h (by decide)) rfl (by decide)).2.2.2.2.2.1,
   (ProceedWrite_keeps_remainder ⟨5⟩
      (sampleWorld (sampleConn []) false 0 (.error GoError.EOF))
      (sampleConn []) [] true 0 rfl (fun _ => rfl) rfl (by decide)).2.1⟩

/-- C4, as stated, fails: a connection with three pending bytes whose write
accepts all three comes back from `ProceedWrite` with an empty buffer, but no
registration call (so no `ModRead`) was issued and its state is still `EPollOUT`. -/
theorem ProceedWrite_drain_counterexample :
    ((⟨5⟩ : Poller).ProceedWrite (sampleWorld (sampleConn [1, 2, 3]) false 3
        (.error GoError.EOF)) (sampleConn [1, 2, 3])) =
      { err := none
        conn := sampleConn []
        calls := [Call.getWriteBuff (sampleConn [1, 2, 3]), Call.sysWrite 7 [1, 2, 3],
                  Call.setWriteBuff (sampleConn [1, 2, 3]) []] } ∧
    ¬ ∀ (p : Poller) (w : World) (conn : Conn) (b : List Byte) (e : Bool),
        w.getWriteBuff conn = (b, e) → b ≠ [] → w.sysWrite conn.fd b = .ok b.length →
        Call.kevent p.Epfd [deleteChange conn.fd EVFILT_WRITE] ∈ (p.ProceedWrite w conn).calls ∧
        (p.ProceedWrite w conn).conn.state = ConnState.EPollIN := by
  refine ⟨by decide, fun h => ?_⟩
  have h0 := h ⟨5⟩ (sampleWorld (sampleConn [1, 2, 3]) false 3 (.error GoError.EOF))
    (sampleConn [1, 2, 3]) [1, 2, 3] false rfl (by decide) rfl
  exact absurd h0.2 (by decide)

/-- C4, amended: the flip happens on the call that finds the queue empty.  A
`ProceedWrite` call that starts with a non-empty buffer `b` and whose write accepts
all of it returns nil with the buffer empty, issues no registration call and leaves
the state as it was; the next call, to which `GetWriteBuff` reports the buffer
empty, issues `ModRead` for the connection's fd and identity and, `ModRead`
succeeding, sets the state to `EPollIN` before its write attempt on the empty
buffer, whether or not that write then succeeds. -/
theorem ProceedWrite_flips_on_next_call (p : Poller) (w1 w2 : World) (conn : Conn)
    (b : List Byte)
    (hb : w1.getWriteBuff conn = (b, false))
    (hw : w1.sysWrite conn.fd b = .ok b.length)
    (hb2 : w2.getWriteBuff (p.ProceedWrite w1 conn).conn = ([], true))
    (hm : (p.ModRead w2 conn.fd conn.id).1 = none) :
    (p.ProceedWrite w1 conn).err = none ∧
    (p.ProceedWrite w1 conn).conn.writeBuff = [] ∧
    (p.ProceedWrite w1 conn).calls =
      [Call.getWriteBuff conn, Call.sysWrite conn.fd b, Call.setWriteBuff conn []] ∧
    registrations (p.ProceedWrite w1 conn).calls = [] ∧
    (p.ProceedWrite w1 conn).conn.state = conn.state ∧
    (p.ProceedWrite w2 (p.ProceedWrite w1 conn).conn).err =
      (match w2.sysWrite conn.fd [] with
        | .error err => some err
        | .ok _ => none) ∧
    (∃ tail,
      (p.ProceedWrite w2 (p.ProceedWrite w1 conn).conn).calls =
        [Call.getWriteBuff (p.ProceedWrite w1 conn).conn,
         Call.kevent p.Epfd [deleteChange conn.fd EVFILT_WRITE],
         Call.kevent p.Epfd [addReadChange conn.fd conn.id],
         Call.setState (p.ProceedWrite w1 conn).conn ConnState.EPollIN,
         Call.sysWrite conn.fd []] ++ tail ∧
      ∀ x ∈ tail, ∃ buf, x = Call.setWriteBuff (p.ProceedWrite w1 conn).conn buf) ∧
    registrations (p.ProceedWrite w2 (p.ProceedWrite w1 conn).conn).calls =
      [(p.Epfd, [deleteChange conn.fd EVFILT_WRITE]),
       (p.Epfd, [addReadChange conn.fd conn.id])] ∧
    Call.setState (p.ProceedWrite w1 conn).conn ConnState.EPollIN ∈
      (p.ProceedWrite w2 (p.ProceedWrite w1 conn).conn).calls ∧
    (p.ProceedWrite w2 (p.ProceedWrite w1 conn).conn).conn.state = ConnState.EPollIN := by
  have h1 := ProceedWrite_of_nonempty p w1 conn b b.length hb hw
  rw [List.drop_length] at h1
  have hdel : w2.kevent p.Epfd [deleteChange conn.fd EVFILT_WRITE] = none := by
    cases h : w2.kevent p.Epfd [deleteChange conn.fd EVFILT_WRITE] with
    | none => rfl
    | some err => rw [ModRead_of_delete_fail p w2 _ _ err h] at hm; exact absurd hm (by simp)
  have hmr := ModRead_of_delete_ok p w2 conn.fd conn.id hdel
  rw [h1] at hb2 ⊢
  cases hw2 : w2.sysWrite conn.fd [] with
  | error err =>
    have h2 := ProceedWrite_of_empty_err p w2 { conn with writeBuff := [] } [] err hb2 hm hw2
    rw [h2, hmr]
    refine ⟨rfl, rfl, rfl, rfl, rfl, rfl, ⟨[], rfl, ?_⟩, rfl, by simp, rfl⟩
    intro x hx
    exact absurd hx (List.not_mem_nil _)
  | ok k2 =>
    have h2 := ProceedWrite_of_empty_ok p w2 { conn with writeBuff := [] } [] k2 hb2 hm hw2
    rw [h2, hmr]
    refine ⟨rfl, rfl, rfl, rfl, rfl, rfl,
      ⟨[Call.setWriteBuff { conn with writeBuff := [] } (List.drop k2 [])], rfl, ?_⟩,
      rfl, by simp, rfl⟩
    intro x hx
    exact ⟨_, List.mem_singleton.mp hx⟩

/-- Witness for C4 (amended): three pending bytes, all accepted, then a second call. -/
theorem ProceedWrite_flips_on_next_call_witness :
    ((⟨5⟩ : Poller).ProceedWrite (sampleWorld (sampleConn []) false 3 (.error GoError.EOF))
      ((⟨5⟩ : Poller).ProceedWrite (sampleWorld (sampleConn [1, 2, 3]) false 3
        (.error GoError.EOF)) (sampleConn [1, 2, 3])).conn).conn.state = ConnState.EPollIN :=
  (ProceedWrite_flips_on_next_call ⟨5⟩
    (sampleWorld (sampleConn [1, 2, 3]) false 3 (.error GoError.EOF))
    (sampleWorld (sampleConn []) false 3 (.error GoError.EOF))
    (sampleConn [1, 2, 3]) [1, 2, 3] rfl rfl rfl rfl).2.2.2.2.2.2.2.2.2

/-! ## Interest swaps: claim C5 -/

/-- C5, as stated, fails: when the deletion of the old filter fails with `ENOENT`
(the filter is absent) and every `EV_ADD` would succeed, `ModWrite` and `ModRead`
return `ENOENT` after the single failed call; the new filter is never registered. -/
theorem ModWrite_ModRead_tolerance_counterexample :
    (⟨5⟩ : Poller).ModWrite (sampleWorld (sampleConn []) true 0 (.error GoError.EOF)) 7 3 =
      (some GoError.ENOENT, [Call.kevent 5 [deleteChange 7 EVFILT_READ]]) ∧
    (⟨5⟩ : Poller).ModRead (sampleWorld (sampleConn []) true 0 (.error GoError.EOF)) 7 3 =
      (some GoError.ENOENT, [Call.kevent 5 [deleteChange 7 EVFILT_WRITE]]) ∧
    ¬ ∀ (p : Poller) (w : World) (fd connID : Int),
        (w.kevent p.Epfd [deleteChange fd EVFILT_READ] ≠ none →
          w.kevent p.Epfd [addWriteChange fd connID] = none →
          (p.ModWrite w fd connID).1 = none ∧
          (p.Epfd, [addWriteChange fd connID]) ∈ registrations (p.ModWrite w fd connID).2) ∧
        (w.kevent p.Epfd [deleteChange fd EVFILT_WRITE] ≠ none →
          w.kevent p.Epfd [addReadChange fd connID] = none →
          (p.ModRead w fd connID).1 = none ∧
          (p.Epfd, [addReadChange fd connID]) ∈ registrations (p.ModRead w fd connID).2) := by
  refine ⟨by decide, by decide, fun h => ?_⟩
  have h0 := (h ⟨5⟩ (sampleWorld (sampleConn []) true 0 (.error GoError.EOF)) 7 3).1
    (by decide) (by decide)
  exact absurd h0.1 (by decide)

/-- C5, amended: `ModWrite` and `ModRead` do not tolerate a failed removal.  When
the call that deletes the old filter fails, they return that error and make no
further call, so the new filter is not registered; only when the deletion succeeds
do they submit the `EV_ADD` change of `AddWrite` / `AddRead` for the fd and
identity, and they return the error of that second call. -/
theorem ModWrite_ModRead_delete_gate (p : Poller) (w : World) (fd connID : Int) :
    (∀ err, w.kevent p.Epfd [deleteChange fd EVFILT_READ] = some err →
      p.ModWrite w fd connID = (some err, [Call.kevent p.Epfd [deleteChange fd EVFILT_READ]]) ∧
      (p.Epfd, [addWriteChange fd connID]) ∉ registrations (p.ModWrite w fd connID).2) ∧
    (w.kevent p.Epfd [deleteChange fd EVFILT_READ] = none →
      p.ModWrite w fd connID =
        (w.kevent p.Epfd [addWriteChange fd connID],
         [Call.kevent p.Epfd [deleteChange fd EVFILT_READ],
          Call.kevent p.Epfd [addWriteChange fd connID]])) ∧
    (∀ err, w.kevent p.Epfd [deleteChange fd EVFILT_WRITE] = some err →
      p.ModRead w fd connID = (some err, [Call.kevent p.Epfd [deleteChange fd EVFILT_WRITE]]) ∧
      (p.Epfd, [addReadChange fd connID]) ∉ registrations (p.ModRead w fd connID).2) ∧
    (w.kevent p.Epfd [deleteChange fd EVFILT_WRITE] = none →
      p.ModRead w fd connID =
        (w.kevent p.Epfd [addReadChange fd connID],
         [Call.kevent p.Epfd [deleteChange fd EVFILT_WRITE],
          Call.kevent p.Epfd [addReadChange fd connID]])) := by
  refine ⟨fun err h => ?_, ModWrite_of_delete_ok p w fd connID, fun err h => ?_,
    ModRead_of_delete_ok p w fd connID⟩
  · rw [ModWrite_of_delete_fail p w fd connID err h]
    refine ⟨rfl, ?_⟩
    simp [registrations, deleteChange, addWriteChange, EV_ADD, EV_DELETE]
  · rw [ModRead_of_delete_fail p w fd connID err h]
    refine ⟨rfl, ?_⟩
    simp [registrations, deleteChange, addReadChange, EV_ADD, EV_DELETE]

/-- Witness for C5 (amended): the read filter of fd 7 is absent, the write filter
present. -/
theorem ModWrite_ModRead_delete_gate_witness :
    (⟨5⟩ : Poller).ModWrite (sampleWorld (sampleConn []) true 0 (.error GoError.EOF)) 7 3 =
      (some GoError.ENOENT, [Call.kevent 5 [deleteChange 7 EVFILT_READ]]) ∧
    (⟨5⟩ : Poller).ModRead (sampleWorld (sampleConn []) false 0 (.error GoError.EOF)) 7 3 =
      (none, [Call.kevent 5 [deleteChange 7 EVFILT_WRITE],
              Call.kevent 5 [addReadChange 7 3]]) :=
  ⟨((ModWrite_ModRead_delete_gate ⟨5⟩
      (sampleWorld (sampleConn []) true 0 (.error GoError.EOF)) 7 3).1
      GoError.ENOENT rfl).1,
   (ModWrite_ModRead_delete_gate ⟨5⟩
      (sampleWorld (sampleConn []) false 0 (.error GoError.EOF)) 7 3).2.2.2 rfl⟩

/-! ## Lemmas on the wait loop -/

theorem published_append (a b : List Call) : published (a ++ b) = published a ++ published b := by
  simp [published, List.filterMap_append]

theorem bulkClears_append (a b : List Call) :
    bulkClears (a ++ b) = bulkClears a ++ bulkClears b := by
  simp [bulkClears, List.filterMap_append]

theorem lookups_append (a b : List Call) : lookups (a ++ b) = lookups a ++ lookups b := by
  simp [lookups, List.filterMap_append]

theorem ModRead_quiet (p : Poller) (w : World) (fd connID : Int) :
    published (p.ModRead w fd connID).2 = [] ∧ bulkClears (p.ModRead w fd connID).2 = [] ∧
    lookups (p.ModRead w fd connID).2 = [] := by
  cases h : w.kevent p.Epfd [deleteChange fd EVFILT_WRITE] with
  | none => rw [ModRead_of_delete_ok p w fd connID h]; exact ⟨rfl, rfl, rfl⟩
  | some err => rw [ModRead_of_delete_fail p w fd connID err h]; exact ⟨rfl, rfl, rfl⟩

theorem ProceedWrite_quiet (p : Poller) (w : World) (conn : Conn) :
    published (p.ProceedWrite w conn).calls = [] ∧
    bulkClears (p.ProceedWrite w conn).calls = [] ∧
    lookups (p.ProceedWrite w conn).calls = [] := by
  obtain ⟨hp, hc, hl⟩ := ModRead_quiet p w conn.fd conn.id
  rcases hb : w.getWriteBuff conn with ⟨b, e⟩
  cases e with
  | false =>
    cases hw : w.sysWrite conn.fd b with
    | error err => rw [ProceedWrite_of_nonempty_err p w conn b err hb hw]; exact ⟨rfl, rfl, rfl⟩
    | ok k => rw [ProceedWrite_of_nonempty p w conn b k hb hw]; exact ⟨rfl, rfl, rfl⟩
  | true =>
    cases hm : (p.ModRead w conn.fd conn.id).1 with
    | some err =>
      rw [ProceedWrite_of_empty_fail p w conn b err hb hm]
      simp only [published_append, bulkClears_append, lookups_append, hp, hc, hl]
      exact ⟨rfl, rfl, rfl⟩
    | none =>
      cases hw : w.sysWrite conn.fd b with
      | error err =>
        rw [ProceedWrite_of_empty_err p w conn b err hb hm hw]
        simp only [published_append, bulkClears_append, lookups_append, hp, hc, hl]
        exact ⟨rfl, rfl, rfl⟩
      | ok k =>
        rw [ProceedWrite_of_empty_ok p w conn b k hb hm hw]
        simp only [published_append, bulkClears_append, lookups_append, hp, hc, hl]
        exact ⟨rfl, rfl, rfl⟩

theorem handleEvent_stale (p : Poller) (w : World) (event : Kevent_t)
    (hget : w.mgrGet (uint64ToInt event.Ident) = none) :
    p.handleEvent w event =
      [Call.mgrGet (uint64ToInt event.Ident), Call.sysClose (uint64ToInt event.Ident),
       Call.pollerRemove p.Epfd (uint64ToInt event.Ident)] := by
  simp [Poller.handleEvent, hget, Poller.Remove]

theorem handleEvent_write (p : Poller) (w : World) (event : Kevent_t) (conn : Conn)
    (hget : w.mgrGet (uint64ToInt event.Ident) = some conn)
    (hf : event.Filter = EVFILT_WRITE) :
    p.handleEvent w event =
      [Call.mgrGet (uint64ToInt event.Ident)] ++ (p.ProceedWrite w conn).calls ++
        (if (p.ProceedWrite w conn).err.isSome then
          [Call.connClose conn, Call.pollerRemove p.Epfd (uint64ToInt event.Ident),
           Call.mgrRemove conn]
         else []) := by
  simp only [Poller.handleEvent, hget, hf, Poller.Remove, if_true]
  cases (p.ProceedWrite w conn).err <;> simp

theorem handleEvent_gate (p : Poller) (w : World) (event : Kevent_t) (conn : Conn)
    (hget : w.mgrGet (uint64ToInt event.Ident) = some conn)
    (hf : event.Filter ≠ EVFILT_WRITE)
    (hgate : (conn.tlsEnable && conn.handshakeCompleted == false) = true) :
    p.handleEvent w event =
      [Call.mgrGet (uint64ToInt event.Ident), Call.sleepHour, Call.setHandshakeCompleted conn,
       Call.setNonblock (uint64ToInt event.Ident)] ++
        (if (w.setNonblock (uint64ToInt event.Ident)).isSome then
          [Call.connClose conn, Call.pollerRemove p.Epfd conn.fd, Call.mgrRemove conn]
         else []) := by
  simp only [Poller.handleEvent, hget, hf, hgate, Poller.Remove, Poller.ClearByConn, if_true,
    if_false]
  cases w.setNonblock (uint64ToInt event.Ident) <;> simp

theorem handleEvent_read (p : Poller) (w : World) (event : Kevent_t) (conn : Conn)
    (hget : w.mgrGet (uint64ToInt event.Ident) = some conn)
    (hf : event.Filter ≠ EVFILT_WRITE)
    (hgate : (conn.tlsEnable && conn.handshakeCompleted == false) = false) :
    p.handleEvent w event =
      [Call.mgrGet (uint64ToInt event.Ident), Call.readFull conn (uint64ToInt event.Ident)] ++
        (match w.readFull conn (uint64ToInt event.Ident) with
         | .error err =>
           if err = GoError.EOF ∨ err = GoError.HeadBytesLengthFail
               ∨ err = GoError.BodyLenExceedLimit then
             [Call.connClose conn, Call.pollerRemove p.Epfd (uint64ToInt event.Ident),
              Call.mgrRemove conn]
           else []
         | .ok message => if message.len ≤ 0 then [] else [Call.emit conn message]) := by
  simp only [Poller.handleEvent, hget, hf, hgate, Poller.Remove, if_false]
  cases w.readFull conn (uint64ToInt event.Ident) with
  | error err => by_cases h : err = GoError.EOF ∨ err = GoError.HeadBytesLengthFail
      ∨ err = GoError.BodyLenExceedLimit <;> simp [h]
  | ok message => by_cases h : message.len ≤ 0 <;> simp [h]

theorem handleEvent_lookups (p : Poller) (w : World) (event : Kevent_t) :
    lookups (p.handleEvent w event) = [uint64ToInt event.Ident] := by
  cases hget : w.mgrGet (uint64ToInt event.Ident) with
  | none => rw [handleEvent_stale p w event hget]; rfl
  | some conn =>
    by_cases hf : event.Filter = EVFILT_WRITE
    · rw [handleEvent_write p w event conn hget hf]
      simp only [lookups_append, (ProceedWrite_quiet p w conn).2.2]
      cases (p.ProceedWrite w conn).err <;> rfl
    · cases hgate : (conn.tlsEnable && conn.handshakeCompleted == false) with
      | true =>
        rw [handleEvent_gate p w event conn hget hf hgate]
        cases w.setNonblock (uint64ToInt event.Ident) <;> rfl
      | false =>
        rw [handleEvent_read p w event conn hget hf hgate]
        cases w.readFull conn (uint64ToInt event.Ident) with
        | error err =>
          by_cases h : err = GoError.EOF ∨ err = GoError.HeadBytesLengthFail
            ∨ err = GoError.BodyLenExceedLimit <;> simp [h, lookups]
        | ok message => by_cases h : message.len ≤ 0 <;> simp [h, lookups]

theorem handleEvent_bulkClears (p : Poller) (w : World) (event : Kevent_t) :
    bulkClears (p.handleEvent w event) = [] := by
  cases hget : w.mgrGet (uint64ToInt event.Ident) with
  | none => rw [handleEvent_stale p w event hget]; rfl
  | some conn =>
    by_cases hf : event.Filter = EVFILT_WRITE
    · rw [handleEvent_write p w event conn hget hf]
      simp only [bulkClears_append, (ProceedWrite_quiet p w conn).2.1]
      cases (p.ProceedWrite w conn).err <;> rfl
    · cases hgate : (conn.tlsEnable && conn.handshakeCompleted == false) with
      | true =>
        rw [handleEvent_gate p w event conn hget hf hgate]
        cases w.setNonblock (uint64ToInt event.Ident) <;> rfl
      | false =>
        rw [handleEvent_read p w event conn hget hf hgate]
        cases w.readFull conn (uint64ToInt event.Ident) with
        | error err =>
          by_cases h : err = GoError.EOF ∨ err = GoError.HeadBytesLengthFail
            ∨ err = GoError.BodyLenExceedLimit <;> simp [h, bulkClears]
        | ok message => by_cases h : message.len ≤ 0 <;> simp [h, bulkClears]

theorem processEvents_bulkClears (p : Poller) (evs : List (Kevent_t × World)) :
    bulkClears (p.processEvents evs) = [] := by
  induction evs with
  | nil => rfl
  | cons e rest ih =>
    obtain ⟨event, w⟩ := e
    simp only [Poller.processEvents, bulkClears_append, handleEvent_bulkClears, ih,
      List.append_nil]

theorem published_write_path (p : Poller) (w : World) (event : Kevent_t) (conn : Conn)
    (hget : w.mgrGet (uint64ToInt event.Ident) = some conn)
    (hf : event.Filter = EVFILT_WRITE) : published (p.handleEvent w event) = [] := by
  rw [handleEvent_write p w event conn hget hf]
  simp only [published_append, (ProceedWrite_quiet p w conn).1]
  cases (p.ProceedWrite w conn).err <;> rfl

theorem published_gate_path (p : Poller) (w : World) (event : Kevent_t) (conn : Conn)
    (hget : w.mgrGet (uint64ToInt event.Ident) = some conn)
    (hf : event.Filter ≠ EVFILT_WRITE)
    (hgate : (conn.tlsEnable && conn.handshakeCompleted == false) = true) :
    published (p.handleEvent w event) = [] := by
  rw [handleEvent_gate p w event conn hget hf hgate]
  cases w.setNonblock (uint64ToInt event.Ident) <;> rfl

theorem published_read_path (p : Poller) (w : World) (event : Kevent_t) (conn : Conn)
    (hget : w.mgrGet (uint64ToInt event.Ident) = some conn)
    (hf : event.Filter ≠ EVFILT_WRITE)
    (hgate : (conn.tlsEnable && conn.handshakeCompleted == false) = false) :
    published (p.handleEvent w event) =
      (match w.readFull conn (uint64ToInt event.Ident) with
       | .error _ => []
       | .ok message => if message.len ≤ 0 then [] else [(conn, message)]) := by
  rw [handleEvent_read p w event conn hget hf hgate]
  cases w.readFull conn (uint64ToInt event.Ident) with
  | error err =>
    by_cases h : err = GoError.EOF ∨ err = GoError.HeadBytesLengthFail
      ∨ err = GoError.BodyLenExceedLimit <;> simp [h, published]
  | ok message => by_cases h : message.len ≤ 0 <;> simp [h, published]

theorem Wait_cons_hard (p : Poller) (r : Round) (rest : List Round)
    (h : r.hardError = true) :
    p.Wait (r :: rest) =
      { returned := true, calls := [Call.keventWait p.Epfd, Call.clearByEpFd p.Epfd] } := by
  cases he : r.err with
  | none => simp [Round.hardError, he] at h
  | some err =>
    have hn : ¬ (err = GoError.EINTR ∨ err = GoError.EAGAIN) := by
      simpa [Round.hardError, he] using h
    simp [Poller.Wait, he, hn]

theorem Wait_cons_retry (p : Poller) (r : Round) (rest : List Round)
    (h : r.err = some GoError.EINTR ∨ r.err = some GoError.EAGAIN) :
    p.Wait (r :: rest) =
      { returned := (p.Wait rest).returned
        calls := Call.keventWait p.Epfd :: (p.Wait rest).calls } := by
  rcases h with h | h <;> simp [Poller.Wait, h]

theorem Wait_cons_events (p : Poller) (r : Round) (rest : List Round) (h : r.err = none) :
    p.Wait (r :: rest) =
      { returned := (p.Wait rest).returned
        calls := Call.keventWait p.Epfd ::
          (p.processEvents (r.events.take r.n.toNat) ++ (p.Wait rest).calls) } := by
  simp [Poller.Wait, h]

theorem hardError_false_cases (r : Round) (h : r.hardError = false) :
    r.err = none ∨ r.err = some GoError.EINTR ∨ r.err = some GoError.EAGAIN := by
  cases he : r.err with
  | none => exact Or.inl rfl
  | some err =>
    have : err = GoError.EINTR ∨ err = GoError.EAGAIN := by
      by_cases h1 : err = GoError.EINTR
      · exact Or.inl h1
      · by_cases h2 : err = GoError.EAGAIN
        · exact Or.inr h2
        · simp [Round.hardError, he, h1, h2] at h
    rcases this with h1 | h1
    · exact Or.inr (Or.inl (by rw [h1]))
    · exact Or.inr (Or.inr (by rw [h1]))

theorem Wait_returned_iff (p : Poller) (rounds : List Round) :
    (p.Wait rounds).returned = true ↔ ∃ r ∈ rounds, r.hardError = true := by
  induction rounds with
  | nil => simp [Poller.Wait]
  | cons r rest ih =>
    cases hh : r.hardError with
    | true =>
      rw [Wait_cons_hard p r rest hh]
      simp only [true_iff]
      exact ⟨r, List.mem_cons_self _ _, hh⟩
    | false =>
      have hret : (p.Wait (r :: rest)).returned = (p.Wait rest).returned := by
        rcases hardError_false_cases r hh with h | h
        · rw [Wait_cons_events p r rest h]
        · rw [Wait_cons_retry p r rest h]
      rw [hret, ih]
      constructor
      · rintro ⟨x, hx, hxh⟩
        exact ⟨x, List.mem_cons_of_mem _ hx, hxh⟩
      · rintro ⟨x, hx, hxh⟩
        rcases List.mem_cons.mp hx with rfl | hx
        · rw [hh] at hxh; exact absurd hxh (by decide)
        · exact ⟨x, hx, hxh⟩

theorem Wait_bulkClears (p : Poller) (rounds : List Round) :
    bulkClears (p.Wait rounds).calls = if (p.Wait rounds).returned then [p.Epfd] else [] := by
  induction rounds with
  | nil => rfl
  | cons r rest ih =>
    cases hh : r.hardError with
    | true => rw [Wait_cons_hard p r rest hh]; rfl
    | false =>
      rcases hardError_false_cases r hh with h | h
      · rw [Wait_cons_events p r rest h]
        have : bulkClears (Call.keventWait p.Epfd ::
            (p.processEvents (r.events.take r.n.toNat) ++ (p.Wait rest).calls)) =
            bulkClears (p.processEvents (r.events.take r.n.toNat))
              ++ bulkClears (p.Wait rest).calls := by
          rw [← bulkClears_append]; rfl
        simp only [this, processEvents_bulkClears, List.nil_append, ih]
      · rw [Wait_cons_retry p r rest h]
        have : bulkClears (Call.keventWait p.Epfd :: (p.Wait rest).calls) =
            bulkClears (p.Wait rest).calls := rfl
        simp only [this, ih]

theorem Wait_append_hard (p : Poller) (pre : List Round) (r : Round) (post : List Round)
    (hpre : ∀ x ∈ pre, x.hardError = false) (hr : r.hardError = true) :
    p.Wait (pre ++ r :: post) =
      { returned := true
        calls := (p.Wait pre).calls ++ [Call.keventWait p.Epfd, Call.clearByEpFd p.Epfd] } := by
  induction pre with
  | nil => rw [List.nil_append, Wait_cons_hard p r post hr]; rfl
  | cons x xs ih =>
    have hx := hpre x (List.mem_cons_self _ _)
    have ih1 := ih (fun y hy => hpre y (List.mem_cons_of_mem _ hy))
    rw [List.cons_append]
    rcases hardError_false_cases x hx with h | h
    · rw [Wait_cons_events p x _ h, Wait_cons_events p x xs h, ih1]
      simp
    · rw [Wait_cons_retry p x _ h, Wait_cons_retry p x xs h, ih1]
      simp

/-! ## The wait loop: claims C6 to C9 -/

/-- C6 (the code departs from the claim): fd 7 is registered with
`AddRead(7, 3)` and the manager holds the connection under its identity 3.  When
fd 7 becomes ready, the loop body calls `ConnectMgr.Get(7)`, the fd, finds
nothing, and closes fd 7 as stale although the connection with identity 3 exists;
for every event the only lookup key is `int(event.Ident)`, whatever `Data` holds. -/
theorem Wait_resolves_by_fd (p : Poller) (w : World) (event : Kevent_t) :
    (⟨5⟩ : Poller).AddRead (sampleWorld (sampleConn []) false 0 (.ok sampleMessage)) 7 3 =
      (none, [Call.kevent 5 [addReadChange 7 3]]) ∧
    (addReadChange 7 3).Ident = (readyEvent 7 EVFILT_READ 3).Ident ∧
    (sampleWorld (sampleConn []) false 0 (.ok sampleMessage)).mgrGet 3 = some (sampleConn []) ∧
    (⟨5⟩ : Poller).handleEvent (sampleWorld (sampleConn []) false 0 (.ok sampleMessage))
        (readyEvent 7 EVFILT_READ 3) =
      [Call.mgrGet 7, Call.sysClose 7, Call.pollerRemove 5 7] ∧
    lookups (p.handleEvent w event) = [uint64ToInt event.Ident] :=
  ⟨by decide, by decide, by decide, by decide, handleEvent_lookups p w event⟩

/-- C7: for a read-ready event of a registered connection with the TLS gate not
active, the loop body closes the connection, calls `p.Remove` for its fd and
removes it from the manager exactly when `ReadFull` returns `io.EOF`,
`HeadBytesLengthFail` or `BodyLenExceedLimit`; for every other error it does
nothing after `ReadFull`; no read error publishes anything, and in every case the
loop goes on with the remaining events. -/
theorem Wait_read_error_classification (p : Poller) (w : World) (event : Kevent_t)
    (conn : Conn) (rest : List (Kevent_t × World))
    (hget : w.mgrGet (uint64ToInt event.Ident) = some conn)
    (hf : event.Filter = EVFILT_READ)
    (hgate : (conn.tlsEnable && conn.handshakeCompleted == false) = false) :
    ((Call.connClose conn ∈ p.handleEvent w event ∧
        Call.pollerRemove p.Epfd (uint64ToInt event.Ident) ∈ p.handleEvent w event ∧
        Call.mgrRemove conn ∈ p.handleEvent w event) ↔
      (w.readFull conn (uint64ToInt event.Ident) = .error GoError.EOF ∨
       w.readFull conn (uint64ToInt event.Ident) = .error GoError.HeadBytesLengthFail ∨
       w.readFull conn (uint64ToInt event.Ident) = .error GoError.BodyLenExceedLimit)) ∧
    (∀ err, w.readFull conn (uint64ToInt event.Ident) = .error err →
      (err = GoError.EOF ∨ err = GoError.HeadBytesLengthFail
        ∨ err = GoError.BodyLenExceedLimit) →
      p.handleEvent w event =
        [Call.mgrGet (uint64ToInt event.Ident), Call.readFull conn (uint64ToInt event.Ident),
         Call.connClose conn, Call.pollerRemove p.Epfd (uint64ToInt event.Ident),
         Call.mgrRemove conn]) ∧
    (∀ err, w.readFull conn (uint64ToInt event.Ident) = .error err →
      err ≠ GoError.EOF → err ≠ GoError.HeadBytesLengthFail →
      err ≠ GoError.BodyLenExceedLimit →
      p.handleEvent w event =
        [Call.mgrGet (uint64ToInt event.Ident),
         Call.readFull conn (uint64ToInt event.Ident)]) ∧
    (∀ err, w.readFull conn (uint64ToInt event.Ident) = .error err →
      published (p.handleEvent w event) = []) ∧
    p.processEvents ((event, w) :: rest) = p.handleEvent w event ++ p.processEvents rest := by
  have hnw : event.Filter ≠ EVFILT_WRITE := by rw [hf]; decide
  have hev := handleEvent_read p w event conn hget hnw hgate
  have hpub := published_read_path p w event conn hget hnw hgate
  refine ⟨?_, ?_, ?_, ?_, rfl⟩
  · rw [hev]
    cases hr : w.readFull conn (uint64ToInt event.Ident) with
    | error err =>
      by_cases h : err = GoError.EOF ∨ err = GoError.HeadBytesLengthFail
        ∨ err = GoError.BodyLenExceedLimit
      · simp [h]
      · simp only [h, if_false, List.append_nil]
        have h' := h
        simp only [not_or] at h'
        simp [h'.1, h'.2.1, h'.2.2]
    | ok message => by_cases h : message.len ≤ 0 <;> simp [h]
  · intro err hr h
    rw [hev, hr]
    simp [h]
  · intro err hr h1 h2 h3
    rw [hev, hr]
    simp [h1, h2, h3]
  · intro err hr
    rw [hpub, hr]

/-- Witness for C7: `ReadFull` answers `BodyLenExceedLimit` for the connection
resolved for fd 7, and the loop body tears the connection down. -/
theorem Wait_read_error_classification_witness :
    (⟨5⟩ : Poller).handleEvent (sampleWorld sameKeyConn false 0
        (.error GoError.BodyLenExceedLimit)) (readyEvent 7 EVFILT_READ 0) =
      [Call.mgrGet 7, Call.readFull sameKeyConn 7, Call.connClose sameKeyConn,
       Call.pollerRemove 5 7, Call.mgrRemove sameKeyConn] :=
  (Wait_read_error_classification ⟨5⟩
    (sampleWorld sameKeyConn false 0 (.error GoError.BodyLenExceedLimit))
    (readyEvent 7 EVFILT_READ 0) sameKeyConn [] (by decide) (by decide) (by decide)).2.1
    GoError.BodyLenExceedLimit rfl (Or.inr (Or.inr rfl))

/-- C8: for every ready event (its filter is the read or the write filter), the
loop body sends exactly the one request `(conn, message)` on the outbound channel
if and only if the event is read-ready, the manager resolves it to `conn`, the TLS
gate is not active, `ReadFull` returned `message` without error and the message
length is greater than 0; in every other case it sends nothing. -/
theorem Wait_publication (p : Poller) (w : World) (event : Kevent_t)
    (hf : event.Filter = EVFILT_READ ∨ event.Filter = EVFILT_WRITE) :
    (∀ conn message,
      published (p.handleEvent w event) = [(conn, message)] ↔
        (event.Filter = EVFILT_READ ∧
         w.mgrGet (uint64ToInt event.Ident) = some conn ∧
         (conn.tlsEnable && conn.handshakeCompleted == false) = false ∧
         w.readFull conn (uint64ToInt event.Ident) = .ok message ∧
         0 < message.len)) ∧
    (published (p.handleEvent w event) = [] ∨
      ∃ conn message, published (p.handleEvent w event) = [(conn, message)]) := by
  have hrw : EVFILT_READ ≠ EVFILT_WRITE := by decide
  cases hget : w.mgrGet (uint64ToInt event.Ident) with
  | none =>
    have hp : published (p.handleEvent w event) = [] := by
      rw [handleEvent_stale p w event hget]; rfl
    rw [hp]
    exact ⟨fun conn message => by simp, Or.inl rfl⟩
  | some c =>
    by_cases hw : event.Filter = EVFILT_WRITE
    · rw [published_write_path p w event c hget hw]
      refine ⟨fun conn message => ?_, Or.inl rfl⟩
      have : ¬ event.Filter = EVFILT_READ := by rw [hw]; exact fun h => hrw h.symm
      simp [this]
    · have hr : event.Filter = EVFILT_READ := by
        rcases hf with h | h
        · exact h
        · exact absurd h hw
      cases hgate : (c.tlsEnable && c.handshakeCompleted == false) with
      | true =>
        rw [published_gate_path p w event c hget hw hgate]
        refine ⟨fun conn message => ?_, Or.inl rfl⟩
        constructor
        · intro h; exact absurd h (by simp)
        · rintro ⟨_, h2, h3, _⟩
          have hc : c = conn := Option.some.inj h2
          rw [← hc, hgate] at h3
          exact absurd h3 (by decide)
      | false =>
        rw [published_read_path p w event c hget hw hgate]
        cases hres : w.readFull c (uint64ToInt event.Ident) with
        | error err =>
          refine ⟨fun conn message => ?_, Or.inl rfl⟩
          constructor
          · intro h; exact absurd h (by simp)
          · rintro ⟨_, h2, _, h4, _⟩
            have hc : c = conn := Option.some.inj h2
            rw [← hc, hres] at h4
            exact absurd h4 (by simp)
        | ok m =>
          by_cases hlen : m.len ≤ 0
          · dsimp only
            rw [if_pos hlen]
            refine ⟨fun conn message => ?_, Or.inl rfl⟩
            constructor
            · intro h; exact absurd h (by simp)
            · rintro ⟨_, h2, _, h4, h5⟩
              have hc : c = conn := Option.some.inj h2
              rw [← hc, hres] at h4
              have hm : m = message := Except.ok.inj h4
              rw [← hm] at h5
              omega
          · dsimp only
            rw [if_neg hlen]
            refine ⟨fun conn message => ?_, Or.inr ⟨c, m, rfl⟩⟩
            constructor
            · intro h
              have h1 : (c, m) = (conn, message) := List.head_eq_of_cons_eq h
              have hc : c = conn := congrArg Prod.fst h1
              have hm : m = message := congrArg Prod.snd h1
              subst hc; subst hm
              exact ⟨hr, rfl, hgate, hres, by omega⟩
            · rintro ⟨_, h2, _, h4, _⟩
              have hc : c = conn := Option.some.inj h2
              subst hc
              rw [hres] at h4
              have hm : m = message := Except.ok.inj h4
              rw [hm]

/-- Witness for C8: a read-ready event for fd 7, resolved by the manager, with a
decoded message of length 5, publishes exactly that request. -/
theorem Wait_publication_witness :
    published ((⟨5⟩ : Poller).handleEvent (sampleWorld sameKeyConn false 0 (.ok sampleMessage))
        (readyEvent 7 EVFILT_READ 0)) = [(sameKeyConn, sampleMessage)] :=
  ((Wait_publication ⟨5⟩ (sampleWorld sameKeyConn false 0 (.ok sampleMessage))
      (readyEvent 7 EVFILT_READ 0) (Or.inl rfl)).1 sameKeyConn sampleMessage).2
    ⟨rfl, by decide, by decide, rfl, by decide⟩

/-- C9: `Wait` has returned exactly when some wait call failed with an error other
than `EINTR` and `EAGAIN`; `ClearByEpFd` is called once, with the poller's own
`Epfd`, when it has returned and not at all otherwise; at the first hard error the
trace ends with the wait call and the clear, whatever the event buffer of that
call holds and whatever would follow; an `EINTR` or `EAGAIN` only adds the failed
wait call to the trace; and a wait call that succeeds leaves the loop running,
whatever happens while its events are handled. -/
theorem Wait_termination (p : Poller) (rounds : List Round) :
    ((p.Wait rounds).returned = true ↔ ∃ r ∈ rounds, r.hardError = true) ∧
    (bulkClears (p.Wait rounds).calls = if (p.Wait rounds).returned then [p.Epfd] else []) ∧
    (∀ pre r post, (∀ x ∈ pre, x.hardError = false) → r.hardError = true →
      p.Wait (pre ++ r :: post) =
        { returned := true
          calls := (p.Wait pre).calls ++
            [Call.keventWait p.Epfd, Call.clearByEpFd p.Epfd] }) ∧
    (∀ r rest, (r.err = some GoError.EINTR ∨ r.err = some GoError.EAGAIN) →
      p.Wait (r :: rest) =
        { returned := (p.Wait rest).returned
          calls := Call.keventWait p.Epfd :: (p.Wait rest).calls }) ∧
    (∀ r rest, r.err = none →
      p.Wait (r :: rest) =
        { returned := (p.Wait rest).returned
          calls := Call.keventWait p.Epfd ::
            (p.processEvents (r.events.take r.n.toNat) ++ (p.Wait rest).calls) }) :=
  ⟨Wait_returned_iff p rounds, Wait_bulkClears p rounds, Wait_append_hard p,
    Wait_cons_retry p, Wait_cons_events p⟩

/-- Witness for C9: an interrupted wait call, a call with a stale fd and an
end-of-stream, then `EBADF`: `Wait` returns after one clear of poller 5. -/
theorem Wait_termination_witness :
    (⟨5⟩ : Poller).Wait (sampleRoundsBefore ++ sampleRoundHard :: sampleRoundsAfter) =
      { returned := true
        calls := ((⟨5⟩ : Poller).Wait sampleRoundsBefore).calls ++
          [Call.keventWait 5, Call.clearByEpFd 5] } :=
  (Wait_termination ⟨5⟩ (sampleRoundsBefore ++ sampleRoundHard :: sampleRoundsAfter)).2.2.1
    sampleRoundsBefore sampleRoundHard sampleRoundsAfter (by decide) (by decide)

/-! ## The close frame: claim C10 -/

/-- C10: `Close` hands exactly the four bytes `[0x88, 0x02, 0x03, 0xE8]` to the
connection's `Write`, directly before `unix.Close` of its fd; it makes no other
write and no other close.  These bytes are `encode(0x88, [0x03, 0xE8])`, and
`[0x03, 0xE8]` is 1000 as a 2-byte big-endian integer; read back by the frame
layout they are a final frame of opcode 8 with that payload. -/
theorem Close_sends_close_frame (c : WsConn) (p : Poller) (w : World) :
    (∃ tail,
      (c.Close p w).2 =
        [Call.pollerRemove p.Epfd c.base.fd, Call.mgrRemove c.base,
         Call.connWrite c.base [0x88, 0x02, 0x03, 0xE8], Call.sysClose c.base.fd] ++ tail ∧
      ∀ x ∈ tail, x = Call.hooksOnClose c.base ∨ x = Call.handlerClose c.base
        ∨ x = Call.reset c.base) ∧
    (c.Close p w).1 = w.sysClose c.base.fd ∧
    encode 0x88 [0x03, 0xE8] = .ok [0x88, 0x02, 0x03, 0xE8] ∧
    beNat [0x03, 0xE8] = 1000 ∧
    decodeFrame [0x88, 0x02, 0x03, 0xE8] =
      some ({ fin := true, opcode := 8, payload := [0x03, 0xE8] }, []) := by
  refine ⟨⟨(if c.hasHooks && w.sysClose c.base.fd == none then [Call.hooksOnClose c.base]
      else []) ++ (if c.isHandleShake then [Call.handlerClose c.base] else [])
      ++ [Call.reset c.base], ?_, ?_⟩, rfl, rfl, by decide, by decide⟩
  · simp [WsConn.Close, Poller.Remove]
  · intro x hx
    simp only [List.mem_append, List.mem_singleton] at hx
    rcases hx with (hx | hx) | hx
    · split at hx
      · exact Or.inl (List.mem_singleton.mp hx)
      · exact absurd hx (List.not_mem_nil _)
    · split at hx
      · exact Or.inr (Or.inl (List.mem_singleton.mp hx))
      · exact absurd hx (List.not_mem_nil _)
    · exact Or.inr (Or.inr hx)

/-! ## The pong frame: claim C11 -/

theorem encode_shape (f : Byte) (bs : List Byte) (hlen : bs.length < 2 ^ 63) :
    ∃ lenField, encode f bs = .ok (f :: (lenField ++ bs)) ∧
      maskBit (f :: (lenField ++ bs)) = false ∧
      (bs.length ≤ 125 → ∃ l : Byte, l.val = bs.length ∧ lenField = [l]) ∧
      (126 ≤ bs.length ∧ bs.length ≤ 65535 →
        ∃ ext, ext.length = 2 ∧ beNat ext = bs.length ∧ lenField = 126 :: ext) ∧
      (65535 < bs.length →
        ∃ ext, ext.length = 8 ∧ beNat ext = bs.length ∧ lenField = 127 :: ext) := by
  by_cases h1 : bs.length ≤ 125
  · have hv := toUint8_val_of_lt bs.length (by omega)
    refine ⟨[toUint8 bs.length], encode_small f bs h1, ?_, ?_, ?_, ?_⟩
    · simp only [List.singleton_append, maskBit, hv, decide_eq_false_iff_not]
      omega
    · intro _; exact ⟨toUint8 bs.length, hv, rfl⟩
    · intro h; omega
    · intro h; omega
  · by_cases h2 : bs.length ≤ 65535
    · have h16 : bs.length < 2 ^ 16 := by omega
      refine ⟨toUint8 126 :: putUint16 (toUint16 bs.length),
        encode_medium f bs (by omega) h2, rfl, ?_, ?_, ?_⟩
      · intro h; omega
      · intro _
        refine ⟨putUint16 (toUint16 bs.length), rfl, ?_, rfl⟩
        rw [toUint16_of_lt _ h16]; exact beNat_putUint16 _ h16
      · intro h; omega
    · have h64 : bs.length < 2 ^ 64 := by omega
      refine ⟨toUint8 127 :: putUint64 (toUint64 bs.length),
        encode_large f bs (by omega), rfl, ?_, ?_, ?_⟩
      · intro h; omega
      · intro h; omega
      · intro _
        refine ⟨putUint64 (toUint64 bs.length), rfl, ?_, rfl⟩
        rw [toUint64_of_lt _ h64]; exact beNat_putUint64 _ h64

theorem pong_of_encoded (c : WsConn) (pw : PushWorld) (m : Message) (out : List Byte)
    (h : encode (toUint8 (10 ||| 128)) m.body = .ok out) :
    c.pong pw (.ok m) =
      { message := none
        err := (match (c.push pw out).1 with
          | .error e => some e
          | .ok _ => none)
        calls := (c.push pw out).2 } := by
  simp only [WsConn.pong, h]
  cases (c.push pw out).1 <;> rfl

theorem push_calls (c : WsConn) (pw : PushWorld) (out : List Byte) :
    (c.push pw out).2 =
      [if c.base.tlsEnable then PushCall.tlsWrite out else PushCall.connWrite out] := by
  unfold WsConn.push
  cases c.base.tlsEnable <;> rfl

/-- C11: for every message that `nextFrame` returns without error (its payload `p`
of a length a Go slice can have), `pong` makes exactly one push, of
`encode(0x8A, p)`: the first byte 0x8A (fin bit set, opcode 0xA), the unmasked
minimal-width length of `p`, then `p` unchanged; it goes to the TLS layer when TLS
is enabled and to the connection otherwise, and `pong` returns a nil message and
the error of that push.  When `nextFrame` returns an error, `pong` returns that
error and pushes nothing. -/
theorem pong_echoes_payload (c : WsConn) (pw : PushWorld) (m : Message) (err : GoError)
    (hlen : m.body.length < 2 ^ 63) :
    (∃ out lenField,
      encode 0x8A m.body = .ok out ∧ out = 0x8A :: (lenField ++ m.body) ∧
      maskBit out = false ∧
      (m.body.length ≤ 125 → ∃ l : Byte, l.val = m.body.length ∧ lenField = [l]) ∧
      (126 ≤ m.body.length ∧ m.body.length ≤ 65535 →
        ∃ ext, ext.length = 2 ∧ beNat ext = m.body.length ∧ lenField = 126 :: ext) ∧
      (65535 < m.body.length →
        ∃ ext, ext.length = 8 ∧ beNat ext = m.body.length ∧ lenField = 127 :: ext) ∧
      pushedData (c.pong pw (.ok m)).calls = [out] ∧
      (c.pong pw (.ok m)).calls =
        [if c.base.tlsEnable then PushCall.tlsWrite out else PushCall.connWrite out] ∧
      (c.pong pw (.ok m)).message = none ∧
      (c.pong pw (.ok m)).err = (match (c.push pw out).1 with
        | .error e => some e
        | .ok _ => none)) ∧
    decide (128 ≤ (0x8A : Byte).val) = true ∧ (0x8A : Byte).val % 16 = 0xA ∧
    c.pong pw (.error err) = { message := none, err := some err, calls := [] } := by
  obtain ⟨lenField, henc, hmask, hs, hm, hl⟩ := encode_shape 0x8A m.body hlen
  have hfb : toUint8 (10 ||| 128) = (0x8A : Byte) := by decide
  have hp := pong_of_encoded c pw m (0x8A :: (lenField ++ m.body)) (by rw [hfb]; exact henc)
  refine ⟨⟨_, lenField, henc, rfl, hmask, hs, hm, hl, ?_, ?_, ?_, ?_⟩, by decide, by decide, rfl⟩
  · rw [hp, push_calls]
    cases c.base.tlsEnable <;> rfl
  · rw [hp, push_calls]
  · rw [hp]
  · rw [hp]

/-- Witness for C11: a ping payload of five bytes on a connection without TLS is
pushed back as `[0x8A, 5]` followed by the payload. -/
theorem pong_echoes_payload_witness :
    sampleMessage.body.length < 2 ^ 63 ∧
    sampleWsConn.pong samplePushWorld (.ok sampleMessage) =
      { message := none, err := none,
        calls := [PushCall.connWrite [0x8A, 5, 104, 101, 108, 108, 111]] } ∧
    sampleWsConn.pong samplePushWorld (.error GoError.EOF) =
      { message := none, err := some GoError.EOF, calls := [] } :=
  ⟨by decide, by decide,
    (pong_echoes_payload sampleWsConn samplePushWorld sampleMessage GoError.EOF
      (by decide)).2.2.2⟩

end Netman
